import Mathlib

/-!
# Essentia: `TempoCNN` aggregation and `SpectralPeaks` configuration

A shallow embedding of `src/algorithms/rhythm/tempocnn.cpp` and
`src/algorithms/spectral/spectralpeaks.cpp`.

Modelling conventions.

* `Real` (a C++ `float`) is the field `ℚ`: every statement is about exact
  arithmetic, rounding is not modelled.
* `int` values are `Int` (candidates) and `Nat` (vote counts); a tempo is a
  distribution index plus 30, far from the range where a 32-bit `int` wraps.
* A `std::vector` is a `List`; an unchecked `v[i]` is a lookup that ends the
  run with `Failure.outOfBounds` when `i` is past the end.
* A run of `compute` returns the output buffers as they stand when the run
  ends, together with the failure that ended it, if any.  The warning log is
  part of the buffers.
* The TensorFlow predictor and the peak detector are collaborators outside
  these two files: the predictor is represented by the matrix `_predictions`
  it leaves behind and by the outcome of its `configure`, the peak detector
  by the outcome of its `configure` on the map it receives.
* The declaration of the parameters and the check of their declared ranges
  belong to the framework, outside these two files: `configureWith` models
  that step for `aggregationMethod` from the specification, in front of the
  body of `TempoCNN::configure`.
-/

namespace Essentia

/-- How a run can end abnormally. -/
inductive Failure where
  /-- An `EssentiaException` with its message. -/
  | exception (msg : String)
  /-- An unchecked vector access past the end. -/
  | outOfBounds
  /-- A helper was called outside the inputs the specification defines it on. -/
  | unspecified
  deriving DecidableEq, Repr

/-! ## Helpers that live outside the two source files -/

/-- Modelled from the spec: `toLower` of a string parameter (its definition is
not among the sources).  "case-insensitive", "lower-cased": every ASCII capital
letter is replaced by its small letter, every other character is kept. -/
def toLower (s : String) : String := String.mk (s.data.map Char.toLower)

/-- Modelled from the spec: `argmax` (essentiamath.h is not among the sources).
"find the index of its maximum value (first occurrence wins on ties)".  No
value on the empty vector. -/
def argmax : List ℚ → Option Nat
  | [] => none
  | x :: xs => some ((x :: xs).indexOf (xs.foldl max x))

/-- Modelled from the spec: `mean` (essentiamath.h is not among the sources).
"arithmetic mean of all elements".  No value on the empty vector. -/
def mean : List ℚ → Option ℚ
  | [] => none
  | x :: xs => some ((x :: xs).sum / ((x :: xs).length : ℚ))

/-- Modelled from the spec: `median` (essentiamath.h is not among the sources).
"standard median (average of two middle elements for even-length sequences, by
value-sorted order)".  No value on the empty vector. -/
def median : List ℚ → Option ℚ
  | [] => none
  | x :: xs =>
    let sorted := (x :: xs).insertionSort (· ≤ ·)
    let size := sorted.length
    if size % 2 = 0 then
      some ((sorted.getD (size / 2 - 1) 0 + sorted.getD (size / 2) 0) / 2)
    else
      some (sorted.getD (size / 2) 0)

/-- The conversion `(int)x` of a `Real`: truncation toward zero. -/
def toInt (x : ℚ) : Int := Int.tdiv x.num (x.den : Int)

/-- The effect of `std::vector<Real>::resize(n)`: the first `n` old entries are
kept, missing ones are value-initialised to zero. -/
def resize (v : List ℚ) (n : Nat) : List ℚ :=
  v.take n ++ List.replicate (n - v.length) 0

/-! ## TempoCNN -/

/-- The constant `_BPMOffset`: index 0 of a distribution stands for 30 BPM. -/
def _BPMOffset : ℚ := 30

/-- The sinks `compute` writes to, and the warning log.  A warning is recorded
as the pair (`secondCandidate`, `mostVotedCandidate`) its message prints. -/
structure Outputs where
  globalTempo : ℚ
  localTempo : List ℚ
  localTempoProbs : List ℚ
  warnings : List (Int × Int)
  deriving DecidableEq, Repr

/-- The locals of the majority-voting branch. -/
structure Votes where
  mostVotedCandidate : Int
  secondCandidate : Int
  mostVotedVotes : Nat
  secondVotes : Nat
  checked : List Int
  deriving DecidableEq, Repr

/-- The decoding loop `for (i = 0; i < _predictions.size(); i++)`, lines 95-99.
`decodeLoop p k i o` runs the `k` iterations `i, i+1, ..., i+k-1`. -/
def decodeLoop (_predictions : List (List ℚ)) : Nat → Nat → Outputs → Outputs × Option Failure
  | 0, _, o => (o, none)
  | k + 1, i, o =>
    match _predictions[i]? with
    | none => (o, some Failure.outOfBounds)
    | some d =>
      match argmax d with
      | none => (o, some Failure.unspecified)
      | some index =>
        if i < o.localTempo.length then
          let o1 := { o with localTempo := o.localTempo.set i ((index : ℚ) + _BPMOffset) }
          match d[index]? with
          | none => (o1, some Failure.outOfBounds)
          | some p =>
            if i < o1.localTempoProbs.length then
              decodeLoop _predictions k (i + 1)
                { o1 with localTempoProbs := o1.localTempoProbs.set i p }
            else (o1, some Failure.outOfBounds)
        else (o, some Failure.outOfBounds)

/-- One pass through the body of the voting loop, lines 115-128, for the entry
`x = localTempo[i]`. -/
def voteStep (localTempo : List ℚ) (s : Votes) (x : ℚ) : Votes :=
  let candidate := toInt x
  if candidate ∈ s.checked then s
  else
    let votes := localTempo.count (candidate : ℚ)
    if votes > s.mostVotedVotes then
      { mostVotedCandidate := candidate
        secondCandidate := s.mostVotedCandidate
        mostVotedVotes := votes
        secondVotes := s.mostVotedVotes
        checked := s.checked ++ [candidate] }
    else
      { s with checked := s.checked ++ [candidate] }

/-- The voting loop `for (i = 0; i < _predictions.size(); i++)`, lines 114-129.
`majorityLoop lt k i s` runs the `k` iterations `i, i+1, ..., i+k-1`. -/
def majorityLoop (localTempo : List ℚ) : Nat → Nat → Votes → Except Failure Votes
  | 0, _, s => Except.ok s
  | k + 1, i, s =>
    match localTempo[i]? with
    | none => Except.error Failure.outOfBounds
    | some x => majorityLoop localTempo k (i + 1) (voteStep localTempo s x)

/-- The algorithm object: the one member the aggregation reads. -/
structure TempoCNN where
  _aggregationMethod : String
  deriving DecidableEq, Repr

/-- The method `TempoCNN::configure`, lines 69-79.  `predictorConfigure` is the
outcome of configuring the predictor with the inherited parameters; when it
throws, the assignment on line 78 is not reached. -/
def TempoCNN.configure (self : TempoCNN) (predictorConfigure : Option Failure)
    (aggregationMethod : String) : TempoCNN × Option Failure :=
  match predictorConfigure with
  | some e => (self, some e)
  | none => ({ self with _aggregationMethod := toLower aggregationMethod }, none)

/-- The method `TempoCNN::compute`, lines 82-143, from the point where the
predictor has filled `_predictions`.  `o` holds the previous contents of the
sinks. -/
def TempoCNN.compute (self : TempoCNN) (_predictions : List (List ℚ)) (o : Outputs) :
    Outputs × Option Failure :=
  let n := _predictions.length
  let o1 := { o with localTempo := resize o.localTempo n
                     localTempoProbs := resize o.localTempoProbs n }
  match decodeLoop _predictions n 0 o1 with
  | (o2, some e) => (o2, some e)
  | (o2, none) =>
    if self._aggregationMethod = "mean" then
      match mean o2.localTempo with
      | none => (o2, some Failure.unspecified)
      | some g => ({ o2 with globalTempo := g }, none)
    else if self._aggregationMethod = "median" then
      match median o2.localTempo with
      | none => (o2, some Failure.unspecified)
      | some g => ({ o2 with globalTempo := g }, none)
    else if self._aggregationMethod = "majority" then
      match o2.localTempo[0]? with
      | none => (o2, some Failure.outOfBounds)
      | some t0 =>
        let init : Votes :=
          { mostVotedCandidate := toInt t0, secondCandidate := toInt t0
            mostVotedVotes := 0, secondVotes := 0, checked := [] }
        match majorityLoop o2.localTempo n 0 init with
        | Except.error e => (o2, some e)
        | Except.ok s =>
          let o3 := { o2 with globalTempo := (s.mostVotedCandidate : ℚ) }
          if s.secondVotes = s.mostVotedVotes then
            ({ o3 with warnings := o3.warnings ++ [(s.secondCandidate, s.mostVotedCandidate)] },
              none)
          else (o3, none)
    else
      (o2, some (Failure.exception "TempoCNN: Bad 'aggregationMethod' parameter"))

/-! ## SpectralPeaks -/

/-- A configuration value. -/
inductive Parameter where
  | real (r : ℚ)
  | integer (n : Int)
  | string (s : String)
  deriving DecidableEq, Repr

/-- A `ParameterMap`: bindings from names to values, in order of insertion. -/
abbrev ParameterMap := List (String × Parameter)

/-- The method `ParameterMap::add`: binds `name` to `value`, replacing an
earlier binding of the same name. -/
def ParameterMap.add (m : ParameterMap) (name : String) (value : Parameter) : ParameterMap :=
  m.filter (fun kv => kv.1 != name) ++ [(name, value)]

/-- The declared parameters of `SpectralPeaks` with their configured values. -/
structure SpectralPeaksParams where
  sampleRate : ℚ
  maxPeaks : Int
  minFrequency : ℚ
  maxFrequency : ℚ
  magnitudeThreshold : ℚ
  orderBy : String
  deriving DecidableEq, Repr

/-- What a run of `SpectralPeaks::configure` did: the map handed to
`_peakDetect->configure`, when that call was reached, and the failure that
ended the run, if any. -/
structure ConfigureRun where
  forwarded : Option ParameterMap
  raised : Option Failure
  deriving DecidableEq, Repr

/-- The method `SpectralPeaks::configure`, lines 32-53.  `peakDetectConfigure`
is the outcome of the peak detector's own `configure` on the map it is given. -/
def SpectralPeaks.configure (peakDetectConfigure : ParameterMap → Option Failure)
    (p : SpectralPeaksParams) : ConfigureRun :=
  let config : ParameterMap := []
  let config := config.add "range" (Parameter.real (p.sampleRate / 2))
  let config := config.add "maxPeaks" (Parameter.integer p.maxPeaks)
  let config := config.add "minPosition" (Parameter.real p.minFrequency)
  let config := config.add "maxPosition" (Parameter.real p.maxFrequency)
  let config := config.add "threshold" (Parameter.real p.magnitudeThreshold)
  let orderBy := toLower p.orderBy
  if orderBy = "magnitude" then
    let config := config.add "orderBy" (Parameter.string "amplitude")
    { forwarded := some config, raised := peakDetectConfigure config }
  else if orderBy = "frequency" then
    let config := config.add "orderBy" (Parameter.string "position")
    { forwarded := some config, raised := peakDetectConfigure config }
  else
    { forwarded := none
      raised := some (Failure.exception ("Unsupported ordering type: '" ++ orderBy ++ "'")) }

/-! ## Derived notions used in the statements -/

/-- The index `argmax` selects in a distribution (0 where `argmax` has no value). -/
def argmaxIndex (d : List ℚ) : Nat := (argmax d).getD 0

/-- The tempo decoded from one distribution. -/
def decodeTempo (d : List ℚ) : ℚ := (argmaxIndex d : ℚ) + _BPMOffset

/-- The confidence decoded from one distribution. -/
def decodeProb (d : List ℚ) : ℚ := d.getD (argmaxIndex d) 0

/-- The locals of the voting branch when its loop has run over the whole of
`localTempo`, started as on lines 109-112. -/
def finalVotes (localTempo : List ℚ) : Votes :=
  localTempo.foldl (voteStep localTempo)
    { mostVotedCandidate := toInt (localTempo.headD 0)
      secondCandidate := toInt (localTempo.headD 0)
      mostVotedVotes := 0, secondVotes := 0, checked := [] }

/-- What the locals of the voting branch satisfy once the entries `P` have been
visited. -/
structure VotesInv (lt P : List ℚ) (s : Votes) : Prop where
  checked_iff : ∀ c : Int, c ∈ s.checked ↔ (c : ℚ) ∈ P
  empty : P = [] → s.mostVotedVotes = 0
  mem : P ≠ [] → (s.mostVotedCandidate : ℚ) ∈ P
  votes : P ≠ [] → s.mostVotedVotes = lt.count (s.mostVotedCandidate : ℚ)
  below : P ≠ [] → s.secondVotes < s.mostVotedVotes
  max : ∀ y ∈ P, lt.count y ≤ s.mostVotedVotes
  first : ∀ y ∈ P, y ≠ (s.mostVotedCandidate : ℚ) → lt.count y = s.mostVotedVotes →
    P.indexOf (s.mostVotedCandidate : ℚ) < P.indexOf y

/-- The distinct values of a list in order of first occurrence: each value is
kept where it first appears and dropped from the rest. -/
def firstOccurrences : List Int → List Int
  | [] => []
  | c :: cs => c :: (firstOccurrences cs).filter (fun b => b ≠ c)

/-- The body of the voting loop without the `checked` lookup of line 117 and
without the `push_back` of line 128: the votes of the entry are counted and
compared at every position.  It is the comparison loop of the refinement
statement, not part of the source. -/
def naiveVoteStep (localTempo : List ℚ) (s : Votes) (x : ℚ) : Votes :=
  let candidate := toInt x
  let votes := localTempo.count (candidate : ℚ)
  if votes > s.mostVotedVotes then
    { s with
      mostVotedCandidate := candidate
      secondCandidate := s.mostVotedCandidate
      mostVotedVotes := votes
      secondVotes := s.mostVotedVotes }
  else s

/-- The locals at the end of the comparison loop run over the whole of
`localTempo`, started as on lines 109-112. -/
def naiveFinalVotes (localTempo : List ℚ) : Votes :=
  localTempo.foldl (naiveVoteStep localTempo)
    { mostVotedCandidate := toInt (localTempo.headD 0)
      secondCandidate := toInt (localTempo.headD 0)
      mostVotedVotes := 0, secondVotes := 0, checked := [] }

/-- Modelled from the spec: the declared range of the parameter
`aggregationMethod` (its declaration in tempocnn.h and the check of declared
parameters are not among the sources).  "`aggregationMethod: string`
(case-insensitive, one of "mean"|"median"|"majority")". -/
def aggregationMethodInRange (aggregationMethod : String) : Bool :=
  decide (toLower aggregationMethod = "mean" ∨ toLower aggregationMethod = "median" ∨
    toLower aggregationMethod = "majority")

/-- Modelled from the spec: configuring the algorithm with a value for
`aggregationMethod` (the step that checks declared parameters before the body
of `configure` runs is not among the sources).  "Unsupported
`aggregationMethod` (e.g., "mode") fails with `ConfigurationError` before any
computation occurs"; "fatal, surfaced to the caller immediately at
configuration time".  A value outside the declared range raises the error and
the body of `configure` is not run; a value inside it is handed to the body. -/
def TempoCNN.configureWith (self : TempoCNN) (predictorConfigure : Option Failure)
    (aggregationMethod : String) : TempoCNN × Option Failure :=
  if aggregationMethodInRange aggregationMethod then
    self.configure predictorConfigure aggregationMethod
  else
    (self, some (Failure.exception "unsupported aggregation method"))

/-- Modelled from the spec: a use of the algorithm by its caller, configuration
first and `compute` after it (the caller is not among the sources).  An error
at configuration time is "surfaced to the caller immediately", "not
recoverable locally": `compute` is not called and the sinks keep their
contents. -/
def TempoCNN.configureThenCompute (self : TempoCNN) (predictorConfigure : Option Failure)
    (aggregationMethod : String) (_predictions : List (List ℚ)) (o : Outputs) :
    Outputs × Option Failure :=
  match self.configureWith predictorConfigure aggregationMethod with
  | (_, some e) => (o, some e)
  | (configured, none) => configured.compute _predictions o

/-- A peak detector whose `configure` refuses the map it is given. -/
def refusingPeakDetect : ParameterMap → Option Failure :=
  fun _ => some (Failure.exception "PeakDetection: configuration refused")

/-! ## Inputs used in the worked cases -/

/-- A distribution whose maximum is at index 5. -/
def peakAt5 : List ℚ := [0, 0, 0, 0, 0, 1]

/-- A distribution whose maximum is at index 10. -/
def peakAt10 : List ℚ := [0, 0, 0, 0, 0, 0, 0, 0, 0, 0, 1]

/-- Sinks that have not been written yet. -/
def freshOutputs : Outputs := ⟨0, [], [], []⟩

/-! ## The helpers -/

theorem foldl_max_ge_init (xs : List ℚ) (a : ℚ) : a ≤ xs.foldl max a := by
  induction xs generalizing a with
  | nil => simp
  | cons y ys ih => exact le_trans (le_max_left a y) (ih (max a y))

theorem foldl_max_ge_mem (xs : List ℚ) (a y : ℚ) (hy : y ∈ xs) : y ≤ xs.foldl max a := by
  induction xs generalizing a with
  | nil => simp at hy
  | cons z zs ih =>
    rcases List.mem_cons.mp hy with h | h
    · subst h
      exact le_trans (le_max_right a y) (foldl_max_ge_init zs (max a y))
    · exact ih (max a z) h

theorem foldl_max_mem (xs : List ℚ) (a : ℚ) : xs.foldl max a ∈ a :: xs := by
  induction xs generalizing a with
  | nil => simp
  | cons y ys ih =>
    have h := ih (max a y)
    show List.foldl max (max a y) ys ∈ a :: y :: ys
    rcases List.mem_cons.mp h with h1 | h1
    · rw [h1]
      rcases max_choice a y with h2 | h2
      · rw [h2]; exact List.mem_cons_self _ _
      · rw [h2]; exact List.mem_cons_of_mem _ (List.mem_cons_self _ _)
    · exact List.mem_cons_of_mem _ (List.mem_cons_of_mem _ h1)

theorem argmax_eq_some (d : List ℚ) (hd : d ≠ []) : argmax d = some (argmaxIndex d) := by
  cases d with
  | nil => exact absurd rfl hd
  | cons x xs => simp [argmaxIndex, argmax]

theorem argmaxIndex_lt (d : List ℚ) (hd : d ≠ []) : argmaxIndex d < d.length := by
  cases d with
  | nil => exact absurd rfl hd
  | cons x xs =>
    simp only [argmaxIndex, argmax, Option.getD_some]
    exact List.indexOf_lt_length.mpr (foldl_max_mem xs x)

theorem argmaxIndex_getElem (d : List ℚ) (hd : d ≠ []) :
    d[argmaxIndex d]? = some (decodeProb d) := by
  have h := argmaxIndex_lt d hd
  simp [decodeProb, List.getElem?_eq_getElem h]

theorem argmaxIndex_value (x : ℚ) (xs : List ℚ) :
    decodeProb (x :: xs) = xs.foldl max x := by
  have hm : xs.foldl max x ∈ x :: xs := foldl_max_mem xs x
  have h := List.getElem?_indexOf hm
  simp only [decodeProb, argmaxIndex, argmax, Option.getD_some, List.getD_eq_getElem?_getD]
  rw [h]
  rfl

theorem indexOf_first (a : ℚ) (l : List ℚ) (j : Nat) (hj : j < l.indexOf a) :
    l[j]? ≠ some a := by
  induction l generalizing j with
  | nil => simp
  | cons y ys ih =>
    by_cases hy : y = a
    · rw [List.indexOf_cons_eq _ hy] at hj
      exact absurd hj (Nat.not_lt_zero _)
    · rw [List.indexOf_cons_ne _ hy] at hj
      cases j with
      | zero => simpa using hy
      | succ j =>
        simp only [List.getElem?_cons_succ]
        exact ih j (Nat.lt_of_succ_lt_succ hj)

/-- The value at the selected index is an upper bound of the distribution, and
strictly above every entry before it. -/
theorem argmaxIndex_spec (d : List ℚ) (hd : d ≠ []) :
    (∀ y ∈ d, y ≤ decodeProb d) ∧
      (∀ j, j < argmaxIndex d → ∀ y, d[j]? = some y → y < decodeProb d) := by
  cases d with
  | nil => exact absurd rfl hd
  | cons x xs =>
    have hub : ∀ y ∈ x :: xs, y ≤ decodeProb (x :: xs) := by
      intro y hy
      rw [argmaxIndex_value]
      rcases List.mem_cons.mp hy with h | h
      · rw [h]; exact foldl_max_ge_init xs x
      · exact foldl_max_ge_mem xs x y h
    refine ⟨hub, ?_⟩
    intro j hj y hy
    have hmem : y ∈ x :: xs := List.getElem?_mem hy
    refine lt_of_le_of_ne (hub y hmem) ?_
    intro heq
    have hj2 : j < (x :: xs).indexOf (xs.foldl max x) := by
      simpa [argmaxIndex, argmax] using hj
    apply indexOf_first _ _ j hj2
    rw [hy, heq, argmaxIndex_value]

/-! ## The decoding loop -/

theorem length_resize (v : List ℚ) (n : Nat) : (resize v n).length = n := by
  simp only [resize, List.length_append, List.length_take, List.length_replicate]
  omega

/-- On non-empty distributions the loop ends normally; it rewrites exactly the
entries `i, ..., i+k-1` of the two buffers and nothing else. -/
theorem decodeLoop_spec (preds : List (List ℚ)) (hne : ∀ d ∈ preds, d ≠ []) :
    ∀ (k i : Nat) (o : Outputs), i + k = preds.length →
      o.localTempo.length = preds.length → o.localTempoProbs.length = preds.length →
      ∃ lt lp, decodeLoop preds k i o =
          ({ o with localTempo := lt, localTempoProbs := lp }, none) ∧
        lt.length = preds.length ∧ lp.length = preds.length ∧
        (∀ j, lt[j]? = if i ≤ j then (preds.map decodeTempo)[j]? else o.localTempo[j]?) ∧
        (∀ j, lp[j]? = if i ≤ j then (preds.map decodeProb)[j]? else o.localTempoProbs[j]?) := by
  intro k
  induction k with
  | zero =>
    intro i o hik hlt hlp
    refine ⟨o.localTempo, o.localTempoProbs, rfl, hlt, hlp, ?_, ?_⟩
    · intro j
      split_ifs with h
      · have h1 : preds.length ≤ j := by omega
        have e1 : (preds.map decodeTempo)[j]? = none :=
          List.getElem?_eq_none (by simpa using h1)
        rw [e1]
        exact List.getElem?_eq_none (by omega)
      · rfl
    · intro j
      split_ifs with h
      · have h1 : preds.length ≤ j := by omega
        have e1 : (preds.map decodeProb)[j]? = none :=
          List.getElem?_eq_none (by simpa using h1)
        rw [e1]
        exact List.getElem?_eq_none (by omega)
      · rfl
  | succ k ih =>
    intro i o hik hlt hlp
    have hi : i < preds.length := by omega
    have hd : preds[i]? = some preds[i] := List.getElem?_eq_getElem hi
    have hdne : preds[i] ≠ [] := hne _ (List.getElem_mem hi)
    have hilt : i < o.localTempo.length := by omega
    have hilp : i < o.localTempoProbs.length := by omega
    obtain ⟨lt, lp, heq, hl1, hl2, h1, h2⟩ :=
      ih (i + 1)
        { o with localTempo := o.localTempo.set i ((argmaxIndex preds[i] : ℚ) + _BPMOffset)
                 localTempoProbs := o.localTempoProbs.set i (decodeProb preds[i]) }
        (by omega) (by simpa using hlt) (by simpa using hlp)
    refine ⟨lt, lp, ?_, hl1, hl2, ?_, ?_⟩
    · rw [decodeLoop, hd]
      simp only [argmax_eq_some _ hdne, argmaxIndex_getElem _ hdne, hilt, hilp, if_true]
      exact heq
    · intro j
      rw [h1 j]
      simp only [List.getElem?_set, hilt, if_true]
      by_cases hj : i = j
      · subst hj
        simp [hi, decodeTempo]
      · by_cases hj2 : i + 1 ≤ j
        · have : i ≤ j := by omega
          simp [hj2, this]
        · have : ¬ i ≤ j := by omega
          simp [hj, hj2, this]
    · intro j
      rw [h2 j]
      simp only [List.getElem?_set, hilp, if_true]
      by_cases hj : i = j
      · subst hj
        simp [hi]
      · by_cases hj2 : i + 1 ≤ j
        · have : i ≤ j := by omega
          simp [hj2, this]
        · have : ¬ i ≤ j := by omega
          simp [hj, hj2, this]

/-- The state of the sinks after the two `resize` calls and the decoding loop. -/
theorem decode_eq (preds : List (List ℚ)) (hne : ∀ d ∈ preds, d ≠ []) (o : Outputs) :
    decodeLoop preds preds.length 0
        { o with localTempo := resize o.localTempo preds.length
                 localTempoProbs := resize o.localTempoProbs preds.length } =
      ({ o with localTempo := preds.map decodeTempo
                localTempoProbs := preds.map decodeProb }, none) := by
  obtain ⟨lt, lp, heq, -, -, h1, h2⟩ :=
    decodeLoop_spec preds hne preds.length 0
      { o with localTempo := resize o.localTempo preds.length
               localTempoProbs := resize o.localTempoProbs preds.length }
      (by omega) (length_resize _ _) (length_resize _ _)
  have e1 : lt = preds.map decodeTempo := List.ext_getElem? (fun j => by simpa using h1 j)
  have e2 : lp = preds.map decodeProb := List.ext_getElem? (fun j => by simpa using h2 j)
  rw [heq, e1, e2]

/-- Whatever the aggregation method does afterwards, the two per-segment sinks
hold the decoded values when the run ends. -/
theorem compute_local (self : TempoCNN) (preds : List (List ℚ)) (o : Outputs)
    (hne : ∀ d ∈ preds, d ≠ []) :
    (self.compute preds o).1.localTempo = preds.map decodeTempo ∧
      (self.compute preds o).1.localTempoProbs = preds.map decodeProb := by
  unfold TempoCNN.compute
  simp only [decode_eq preds hne o]
  split_ifs
  · cases mean (preds.map decodeTempo) <;> exact ⟨rfl, rfl⟩
  · cases median (preds.map decodeTempo) <;> exact ⟨rfl, rfl⟩
  · cases h0 : (preds.map decodeTempo)[0]? with
    | none => exact ⟨rfl, rfl⟩
    | some t0 =>
      simp only []
      split
      · exact ⟨rfl, rfl⟩
      · split_ifs <;> exact ⟨rfl, rfl⟩
  · exact ⟨rfl, rfl⟩

/-- C1. Decode step of `TempoCNN::compute`: on non-empty distributions the two
per-segment outputs have one entry per segment, in segment order; entry `i` is
obtained from distribution `i` alone (the outputs are the distributions mapped
through one fixed function each); `localTempo[i] = k + 30` and
`localTempoProbs[i] = distribution_i[k]` where `k` is the smallest index at
which distribution `i` attains its maximum.  This holds for every stored
aggregation method and every previous content of the sinks. -/
theorem decode_step (self : TempoCNN) (preds : List (List ℚ)) (o : Outputs)
    (hne : ∀ d ∈ preds, d ≠ []) :
    (self.compute preds o).1.localTempo.length = preds.length ∧
    (self.compute preds o).1.localTempoProbs.length = preds.length ∧
    (self.compute preds o).1.localTempo = preds.map decodeTempo ∧
    (self.compute preds o).1.localTempoProbs = preds.map decodeProb ∧
    ∀ (i : Nat) (d : List ℚ), preds[i]? = some d →
      ∃ (k : Nat) (p : ℚ), d[k]? = some p ∧
        (∀ y ∈ d, y ≤ p) ∧
        (∀ (j : Nat) (y : ℚ), j < k → d[j]? = some y → y < p) ∧
        (self.compute preds o).1.localTempo[i]? = some ((k : ℚ) + 30) ∧
        (self.compute preds o).1.localTempoProbs[i]? = some p := by
  obtain ⟨h1, h2⟩ := compute_local self preds o hne
  refine ⟨by rw [h1, List.length_map], by rw [h2, List.length_map], h1, h2, ?_⟩
  intro i d hd
  have hdne : d ≠ [] := hne d (List.getElem?_mem hd)
  obtain ⟨hub, hfirst⟩ := argmaxIndex_spec d hdne
  refine ⟨argmaxIndex d, decodeProb d, argmaxIndex_getElem d hdne, hub, ?_, ?_, ?_⟩
  · intro j y hj hy
    exact hfirst j hj y hy
  · rw [h1, List.getElem?_map, hd]
    rfl
  · rw [h2, List.getElem?_map, hd]
    rfl

/-! ## The voting loop -/

theorem toInt_intCast (c : Int) : toInt (c : ℚ) = c := by
  simp [toInt]

theorem decodeTempo_integral (d : List ℚ) : ((toInt (decodeTempo d) : Int) : ℚ) = decodeTempo d := by
  have h : decodeTempo d = (((argmaxIndex d + 30 : Nat) : Int) : ℚ) := by
    simp [decodeTempo, _BPMOffset]
  rw [h, toInt_intCast]

/-- With every index in range the loop ends normally, and its result is the
left fold of the loop body over the entries it visits. -/
theorem majorityLoop_eq_foldl (lt : List ℚ) :
    ∀ (k i : Nat) (s : Votes), i + k ≤ lt.length →
      majorityLoop lt k i s = Except.ok (((lt.drop i).take k).foldl (voteStep lt) s) := by
  intro k
  induction k with
  | zero => intro i s _; simp [majorityLoop]
  | succ k ih =>
    intro i s hik
    have hi : i < lt.length := by omega
    rw [majorityLoop, List.getElem?_eq_getElem hi]
    simp only []
    rw [ih (i + 1) _ (by omega), List.drop_eq_getElem_cons hi, List.take_succ_cons,
      List.foldl_cons]

theorem votesInv_init (lt : List ℚ) (c0 : Int) :
    VotesInv lt [] ⟨c0, c0, 0, 0, []⟩ where
  checked_iff := by simp
  empty := fun _ => rfl
  mem := fun h => absurd rfl h
  votes := fun h => absurd rfl h
  below := fun h => absurd rfl h
  max := by simp
  first := by simp

theorem votesInv_step (lt P : List ℚ) (s : Votes) (x : ℚ) (hinv : VotesInv lt P s)
    (hx : ((toInt x : Int) : ℚ) = x) (hpos : 0 < lt.count x) :
    VotesInv lt (P ++ [x]) (voteStep lt s x) := by
  have hcast : ∀ c : Int, c = toInt x ↔ (c : ℚ) = x := by
    intro c
    constructor
    · intro h; rw [h, hx]
    · intro h; rw [← h, toInt_intCast]
  by_cases hseen : toInt x ∈ s.checked
  · -- an entry already counted: the locals do not change
    have hxP : x ∈ P := by
      have := (hinv.checked_iff (toInt x)).mp hseen
      rwa [hx] at this
    have hP : P ≠ [] := List.ne_nil_of_mem hxP
    have hstep : voteStep lt s x = s := by simp [voteStep, hseen]
    rw [hstep]
    have hmemP : ∀ y, y ∈ P ++ [x] → y ∈ P := by
      intro y hy
      rcases List.mem_append.mp hy with h | h
      · exact h
      · rw [List.mem_singleton.mp h]; exact hxP
    exact
      { checked_iff := fun c => by
          rw [hinv.checked_iff c]
          exact ⟨fun h => List.mem_append_left _ h, hmemP _⟩
        empty := fun h => absurd h (by simp)
        mem := fun _ => List.mem_append_left _ (hinv.mem hP)
        votes := fun _ => hinv.votes hP
        below := fun _ => hinv.below hP
        max := fun y hy => hinv.max y (hmemP y hy)
        first := fun y hy hne hc => by
          rw [List.indexOf_append_of_mem (hinv.mem hP),
            List.indexOf_append_of_mem (hmemP y hy)]
          exact hinv.first y (hmemP y hy) hne hc }
  · have hxP : x ∉ P := by
      intro h
      apply hseen
      apply (hinv.checked_iff (toInt x)).mpr
      rwa [hx]
    by_cases hgt : lt.count x > s.mostVotedVotes
    · -- a new winner
      have hstep : voteStep lt s x =
          { mostVotedCandidate := toInt x, secondCandidate := s.mostVotedCandidate
            mostVotedVotes := lt.count x, secondVotes := s.mostVotedVotes
            checked := s.checked ++ [toInt x] } := by
        simp [voteStep, hseen, hx, hgt]
      rw [hstep]
      exact
        { checked_iff := fun c => by
            simp only [List.mem_append, List.mem_singleton, hinv.checked_iff c, hcast c]
          empty := fun h => absurd h (by simp)
          mem := fun _ => by simp [hx]
          votes := fun _ => by simp [hx]
          below := fun _ => hgt
          max := fun y hy => by
            rcases List.mem_append.mp hy with h | h
            · exact le_of_lt (lt_of_le_of_lt (hinv.max y h) hgt)
            · rw [List.mem_singleton.mp h]
          first := fun y hy hne hc => by
            exfalso
            simp only [hx] at hne hc
            rcases List.mem_append.mp hy with h | h
            · have := hinv.max y h
              omega
            · exact hne (List.mem_singleton.mp h) }
    · -- the winner stays
      have hP : P ≠ [] := by
        intro h
        have := hinv.empty h
        omega
      have hstep : voteStep lt s x = { s with checked := s.checked ++ [toInt x] } := by
        simp [voteStep, hseen, hx, hgt]
      rw [hstep]
      exact
        { checked_iff := fun c => by
            simp only [List.mem_append, List.mem_singleton, hinv.checked_iff c, hcast c]
          empty := fun h => absurd h (by simp)
          mem := fun _ => List.mem_append_left _ (hinv.mem hP)
          votes := fun _ => hinv.votes hP
          below := fun _ => hinv.below hP
          max := fun y hy => by
            rcases List.mem_append.mp hy with h | h
            · exact hinv.max y h
            · rw [List.mem_singleton.mp h]; exact not_lt.mp hgt
          first := fun y hy hne hc => by
            show List.indexOf (s.mostVotedCandidate : ℚ) (P ++ [x]) < List.indexOf y (P ++ [x])
            rw [List.indexOf_append_of_mem (hinv.mem hP)]
            rcases List.mem_append.mp hy with h | h
            · rw [List.indexOf_append_of_mem h]
              exact hinv.first y h hne hc
            · rw [List.mem_singleton.mp h, List.indexOf_append_of_not_mem hxP]
              have := List.indexOf_lt_length.mpr (hinv.mem hP)
              omega }

theorem votesInv_foldl (lt : List ℚ) :
    ∀ (S P : List ℚ) (s : Votes), VotesInv lt P s →
      (∀ x ∈ S, ((toInt x : Int) : ℚ) = x ∧ 0 < lt.count x) →
      VotesInv lt (P ++ S) (S.foldl (voteStep lt) s) := by
  intro S
  induction S with
  | nil => intro P s h _; simpa using h
  | cons x S ih =>
    intro P s h hS
    have hx := hS x (List.mem_cons_self _ _)
    have h1 := votesInv_step lt P s x h hx.1 hx.2
    have h2 := ih (P ++ [x]) (voteStep lt s x) h1
      (fun y hy => hS y (List.mem_cons_of_mem _ hy))
    simpa using h2

/-- The majority branch on a non-empty sequence of non-empty distributions:
the run ends normally, the winner of the vote is written to `globalTempo`,
the warning log is left as it was, and the locals at the end of the loop
satisfy the invariant for the whole of `localTempo`. -/
theorem compute_majority (self : TempoCNN) (preds : List (List ℚ)) (o : Outputs)
    (hm : self._aggregationMethod = "majority") (hpreds : preds ≠ [])
    (hne : ∀ d ∈ preds, d ≠ []) :
    VotesInv (preds.map decodeTempo) (preds.map decodeTempo)
        (finalVotes (preds.map decodeTempo)) ∧
      self.compute preds o =
        ({ globalTempo := ((finalVotes (preds.map decodeTempo)).mostVotedCandidate : ℚ)
           localTempo := preds.map decodeTempo
           localTempoProbs := preds.map decodeProb
           warnings := o.warnings }, none) := by
  obtain ⟨d0, rest, rfl⟩ := List.exists_cons_of_ne_nil hpreds
  have hall : ∀ x ∈ (d0 :: rest).map decodeTempo,
      ((toInt x : Int) : ℚ) = x ∧ 0 < ((d0 :: rest).map decodeTempo).count x := by
    intro x hx
    refine ⟨?_, List.count_pos_iff.mpr hx⟩
    obtain ⟨d, -, rfl⟩ := List.mem_map.mp hx
    exact decodeTempo_integral d
  have hinv := votesInv_foldl ((d0 :: rest).map decodeTempo) ((d0 :: rest).map decodeTempo) []
    ⟨toInt (decodeTempo d0), toInt (decodeTempo d0), 0, 0, []⟩ (votesInv_init _ _) hall
  rw [List.nil_append] at hinv
  have hfin : finalVotes ((d0 :: rest).map decodeTempo) =
      ((d0 :: rest).map decodeTempo).foldl (voteStep ((d0 :: rest).map decodeTempo))
        ⟨toInt (decodeTempo d0), toInt (decodeTempo d0), 0, 0, []⟩ := rfl
  rw [hfin]
  refine ⟨hinv, ?_⟩
  have hbelow := hinv.below (by simp)
  have hloop := majorityLoop_eq_foldl ((d0 :: rest).map decodeTempo) (d0 :: rest).length 0
    ⟨toInt (decodeTempo d0), toInt (decodeTempo d0), 0, 0, []⟩ (by simp)
  rw [List.drop_zero, List.take_of_length_le (by simp)] at hloop
  have hmean : ¬ ("majority" : String) = "mean" := by decide
  have hmedian : ¬ ("majority" : String) = "median" := by decide
  have h0 : ((d0 :: rest).map decodeTempo)[0]? = some (decodeTempo d0) := by simp
  unfold TempoCNN.compute
  simp only [decode_eq (d0 :: rest) hne o, hm, hmean, hmedian, if_true, if_false, h0, hloop,
    if_neg (Nat.ne_of_lt hbelow)]

/-! ## Worked inputs -/

theorem decodeTempo_peakAt5 : decodeTempo peakAt5 = 35 := by
  have h : argmaxIndex peakAt5 = 5 := by decide
  rw [decodeTempo, h, _BPMOffset]
  norm_num

theorem decodeTempo_peakAt10 : decodeTempo peakAt10 = 40 := by
  have h : argmaxIndex peakAt10 = 10 := by decide
  rw [decodeTempo, h, _BPMOffset]
  norm_num

theorem decodeProb_peakAt5 : decodeProb peakAt5 = 1 := by decide

theorem decodeProb_peakAt10 : decodeProb peakAt10 = 1 := by decide

theorem toInt_35 : toInt 35 = 35 := by decide

theorem toInt_40 : toInt 40 = 40 := by decide

theorem finalVotes_35_35_40 :
    finalVotes [35, 35, 40] = ⟨35, 35, 2, 0, [35, 40]⟩ := by
  simp [finalVotes, voteStep, toInt_35, toInt_40, List.count_cons]

theorem finalVotes_35_40 : finalVotes [35, 40] = ⟨35, 35, 1, 0, [35, 40]⟩ := by
  simp [finalVotes, voteStep, toInt_35, toInt_40, List.count_cons]

theorem finalVotes_40_35 : finalVotes [40, 35] = ⟨40, 40, 1, 0, [40, 35]⟩ := by
  simp [finalVotes, voteStep, toInt_35, toInt_40, List.count_cons]

/-- C1 at a concrete input: two segments with maxima at indices 5 and 10
decode to the tempos 35 and 40 with confidence 1 each, also under a method
that `compute` rejects. -/
theorem decode_step_witness :
    ((TempoCNN.mk "mode").compute [peakAt5, peakAt10] freshOutputs).1.localTempo = [35, 40] ∧
      ((TempoCNN.mk "mode").compute [peakAt5, peakAt10] freshOutputs).1.localTempoProbs
        = [1, 1] := by
  have h := decode_step (TempoCNN.mk "mode") [peakAt5, peakAt10] freshOutputs (by decide)
  rw [h.2.2.1, h.2.2.2.1]
  simp [decodeTempo_peakAt5, decodeTempo_peakAt10, decodeProb_peakAt5, decodeProb_peakAt10]

/-! ## Majority voting -/

theorem compute_example_majority :
    (TempoCNN.mk "majority").compute [peakAt5, peakAt5, peakAt10] freshOutputs =
      (⟨35, [35, 35, 40], [1, 1, 1], []⟩, none) := by
  have h := (compute_majority (TempoCNN.mk "majority") [peakAt5, peakAt5, peakAt10]
    freshOutputs rfl (by decide) (by decide)).2
  simp only [List.map, decodeTempo_peakAt5, decodeTempo_peakAt10, decodeProb_peakAt5,
    decodeProb_peakAt10, finalVotes_35_35_40] at h
  rw [h]
  simp [freshOutputs]

/-- C2. Majority vote, strict plurality: on a non-empty sequence of non-empty
distributions, when a value `v` of `localTempo` occurs strictly more often than
every other value of `localTempo`, `compute` with the method "majority" ends
normally, writes `v` to `globalTempo` and adds nothing to the warning log. -/
theorem majority_strict_plurality (self : TempoCNN) (preds : List (List ℚ)) (o : Outputs)
    (v : ℚ) (hm : self._aggregationMethod = "majority") (hpreds : preds ≠ [])
    (hne : ∀ d ∈ preds, d ≠ [])
    (hv : v ∈ (self.compute preds o).1.localTempo)
    (hplur : ∀ u ∈ (self.compute preds o).1.localTempo, u ≠ v →
      (self.compute preds o).1.localTempo.count u <
        (self.compute preds o).1.localTempo.count v) :
    (self.compute preds o).1.globalTempo = v ∧
      (self.compute preds o).1.warnings = o.warnings ∧
      (self.compute preds o).2 = none := by
  obtain ⟨hinv, heq⟩ := compute_majority self preds o hm hpreds hne
  rw [heq] at hv hplur ⊢
  refine ⟨?_, rfl, rfl⟩
  simp only at hv hplur ⊢
  have hP : preds.map decodeTempo ≠ [] := List.ne_nil_of_mem hv
  by_contra hcon
  have h1 := hplur _ (hinv.mem hP) hcon
  have h2 := hinv.max v hv
  have h3 := hinv.votes hP
  omega

/-- C2 at the input of the specification's example: maxima at indices 5, 5 and
10 give `localTempo = [35, 35, 40]`, `globalTempo = 35` and no warning. -/
theorem majority_strict_plurality_witness :
    ((TempoCNN.mk "majority").compute [peakAt5, peakAt5, peakAt10] freshOutputs).1.localTempo
        = [35, 35, 40] ∧
      ((TempoCNN.mk "majority").compute [peakAt5, peakAt5, peakAt10] freshOutputs).1.globalTempo
        = 35 ∧
      ((TempoCNN.mk "majority").compute [peakAt5, peakAt5, peakAt10] freshOutputs).1.warnings
        = [] ∧
      ((TempoCNN.mk "majority").compute [peakAt5, peakAt5, peakAt10] freshOutputs).2 = none :=
  ⟨by rw [compute_example_majority],
    majority_strict_plurality (TempoCNN.mk "majority") [peakAt5, peakAt5, peakAt10]
      freshOutputs 35 rfl (by decide) (by decide)
      (by rw [compute_example_majority]; simp)
      (by
        rw [compute_example_majority]
        intro u hu hne
        have hu40 : u = 40 := by
          simp only [List.mem_cons, List.mem_singleton, List.not_mem_nil, or_false] at hu
          rcases hu with h | h | h
          · exact absurd h hne
          · exact absurd h hne
          · exact h
        subst hu40
        simp [List.count_cons])⟩

/-- C3. Majority vote, tie-break: on a non-empty sequence of non-empty
distributions, `compute` with the method "majority" writes to `globalTempo` a
value of `localTempo` with the highest occurrence count, and every other value
with that same count has its first occurrence later in segment order: among
the values that share the highest count the one seen first is returned. -/
theorem majority_tie_break (self : TempoCNN) (preds : List (List ℚ)) (o : Outputs)
    (hm : self._aggregationMethod = "majority") (hpreds : preds ≠ [])
    (hne : ∀ d ∈ preds, d ≠ []) :
    (self.compute preds o).2 = none ∧
    (self.compute preds o).1.globalTempo ∈ (self.compute preds o).1.localTempo ∧
    (∀ u ∈ (self.compute preds o).1.localTempo,
      (self.compute preds o).1.localTempo.count u ≤
        (self.compute preds o).1.localTempo.count (self.compute preds o).1.globalTempo) ∧
    (∀ u ∈ (self.compute preds o).1.localTempo,
      u ≠ (self.compute preds o).1.globalTempo →
      (self.compute preds o).1.localTempo.count u =
        (self.compute preds o).1.localTempo.count (self.compute preds o).1.globalTempo →
      (self.compute preds o).1.localTempo.indexOf (self.compute preds o).1.globalTempo <
        (self.compute preds o).1.localTempo.indexOf u) := by
  obtain ⟨hinv, heq⟩ := compute_majority self preds o hm hpreds hne
  rw [heq]
  simp only
  have hP : preds.map decodeTempo ≠ [] := by simpa using hpreds
  have hvotes := hinv.votes hP
  refine ⟨trivial, hinv.mem hP, ?_, ?_⟩
  · intro u hu
    rw [← hvotes]
    exact hinv.max u hu
  · intro u hu hne hc
    rw [← hvotes] at hc
    exact hinv.first u hu hne hc

theorem compute_tie_35_40 :
    (TempoCNN.mk "majority").compute [peakAt5, peakAt10] freshOutputs =
      (⟨35, [35, 40], [1, 1], []⟩, none) := by
  have h := (compute_majority (TempoCNN.mk "majority") [peakAt5, peakAt10]
    freshOutputs rfl (by decide) (by decide)).2
  simp only [List.map, decodeTempo_peakAt5, decodeTempo_peakAt10, decodeProb_peakAt5,
    decodeProb_peakAt10, finalVotes_35_40] at h
  rw [h]
  simp [freshOutputs]

theorem compute_tie_40_35 :
    (TempoCNN.mk "majority").compute [peakAt10, peakAt5] freshOutputs =
      (⟨40, [40, 35], [1, 1], []⟩, none) := by
  have h := (compute_majority (TempoCNN.mk "majority") [peakAt10, peakAt5]
    freshOutputs rfl (by decide) (by decide)).2
  simp only [List.map, decodeTempo_peakAt5, decodeTempo_peakAt10, decodeProb_peakAt5,
    decodeProb_peakAt10, finalVotes_40_35] at h
  rw [h]
  simp [freshOutputs]

/-- C3 at a concrete input: maxima at indices 10 and 5 give
`localTempo = [40, 35]`, both values have one vote, and the value seen first,
40, is returned. -/
theorem majority_tie_break_witness :
    ((TempoCNN.mk "majority").compute [peakAt10, peakAt5] freshOutputs).1.globalTempo ∈
        ((TempoCNN.mk "majority").compute [peakAt10, peakAt5] freshOutputs).1.localTempo ∧
      ((TempoCNN.mk "majority").compute [peakAt10, peakAt5] freshOutputs).1.localTempo
        = [40, 35] ∧
      ((TempoCNN.mk "majority").compute [peakAt10, peakAt5] freshOutputs).1.globalTempo = 40 :=
  ⟨(majority_tie_break (TempoCNN.mk "majority") [peakAt10, peakAt5] freshOutputs rfl
      (by decide) (by decide)).2.1,
    by rw [compute_tie_40_35], by rw [compute_tie_40_35]⟩

/-- C4, the code at the failing input: maxima at indices 5 and 10 give
`localTempo = [35, 40]`, where 35 and 40 are tied with one vote each; the run
returns 35 and the warning log stays empty, and at the end of the loop
`secondCandidate` is 35 with `secondVotes = 0`, not the tied value 40. -/
theorem tie_warning_not_emitted :
    (TempoCNN.mk "majority").compute [peakAt5, peakAt10] freshOutputs =
        (⟨35, [35, 40], [1, 1], []⟩, none) ∧
      List.count (35 : ℚ) [35, 40] = 1 ∧ List.count (40 : ℚ) [35, 40] = 1 ∧
      (finalVotes [35, 40]).secondCandidate = 35 ∧ (finalVotes [35, 40]).secondVotes = 0 := by
  refine ⟨compute_tie_35_40, ?_, ?_, ?_, ?_⟩
  · simp [List.count_cons]
  · simp [List.count_cons]
  · rw [finalVotes_35_40]
  · rw [finalVotes_35_40]

/-! ## Mean and median -/

theorem compute_mean (self : TempoCNN) (preds : List (List ℚ)) (o : Outputs)
    (hm : self._aggregationMethod = "mean") (hpreds : preds ≠ [])
    (hne : ∀ d ∈ preds, d ≠ []) :
    self.compute preds o =
      ({ globalTempo := (preds.map decodeTempo).sum / ((preds.map decodeTempo).length : ℚ)
         localTempo := preds.map decodeTempo
         localTempoProbs := preds.map decodeProb
         warnings := o.warnings }, none) := by
  obtain ⟨d0, rest, rfl⟩ := List.exists_cons_of_ne_nil hpreds
  unfold TempoCNN.compute
  simp only [decode_eq (d0 :: rest) hne o, hm, if_true]
  rfl

/-- C5. Mean aggregation: on a non-empty sequence of non-empty distributions,
`compute` with the method "mean" ends normally and writes to `globalTempo` the
sum of `localTempo` divided by its length, in exact rational arithmetic. -/
theorem mean_aggregation (self : TempoCNN) (preds : List (List ℚ)) (o : Outputs)
    (hm : self._aggregationMethod = "mean") (hpreds : preds ≠ [])
    (hne : ∀ d ∈ preds, d ≠ []) :
    (self.compute preds o).2 = none ∧
      (self.compute preds o).1.globalTempo =
        (self.compute preds o).1.localTempo.sum /
          ((self.compute preds o).1.localTempo.length : ℚ) := by
  rw [compute_mean self preds o hm hpreds hne]
  exact ⟨rfl, rfl⟩

theorem compute_example_mean :
    (TempoCNN.mk "mean").compute [peakAt5, peakAt5, peakAt10] freshOutputs =
      (⟨110 / 3, [35, 35, 40], [1, 1, 1], []⟩, none) := by
  rw [compute_mean (TempoCNN.mk "mean") [peakAt5, peakAt5, peakAt10] freshOutputs rfl
    (by decide) (by decide)]
  simp only [List.map, decodeTempo_peakAt5, decodeTempo_peakAt10, decodeProb_peakAt5,
    decodeProb_peakAt10]
  norm_num [freshOutputs]

/-- C5 at the input of the specification's example: `localTempo = [35, 35, 40]`
gives `globalTempo = 110/3`. -/
theorem mean_aggregation_witness :
    ((TempoCNN.mk "mean").compute [peakAt5, peakAt5, peakAt10] freshOutputs).1.localTempo
        = [35, 35, 40] ∧
      ((TempoCNN.mk "mean").compute [peakAt5, peakAt5, peakAt10] freshOutputs).1.globalTempo
        = 110 / 3 ∧
      ((TempoCNN.mk "mean").compute [peakAt5, peakAt5, peakAt10] freshOutputs).1.globalTempo =
        ((TempoCNN.mk "mean").compute [peakAt5, peakAt5, peakAt10] freshOutputs).1.localTempo.sum /
          (((TempoCNN.mk "mean").compute [peakAt5, peakAt5, peakAt10]
            freshOutputs).1.localTempo.length : ℚ) :=
  ⟨by rw [compute_example_mean], by rw [compute_example_mean],
    (mean_aggregation (TempoCNN.mk "mean") [peakAt5, peakAt5, peakAt10] freshOutputs rfl
      (by decide) (by decide)).2⟩

theorem insertionSort_perm_eq (l l' : List ℚ) (h : l.Perm l') :
    l.insertionSort (· ≤ ·) = l'.insertionSort (· ≤ ·) :=
  List.eq_of_perm_of_sorted
    (((List.perm_insertionSort (· ≤ ·) l).trans h).trans
      (List.perm_insertionSort (· ≤ ·) l').symm)
    (List.sorted_insertionSort (· ≤ ·) l) (List.sorted_insertionSort (· ≤ ·) l')

theorem median_eq (l : List ℚ) (hl : l ≠ []) :
    median l = some
      (if l.length % 2 = 0 then
        (((l.insertionSort (· ≤ ·))[l.length / 2 - 1]?).getD 0 +
          ((l.insertionSort (· ≤ ·))[l.length / 2]?).getD 0) / 2
      else ((l.insertionSort (· ≤ ·))[l.length / 2]?).getD 0) := by
  cases l with
  | nil => exact absurd rfl hl
  | cons x xs =>
    simp only [median, List.length_insertionSort, List.getD_eq_getElem?_getD]
    split_ifs <;> rfl

theorem median_perm (l l' : List ℚ) (h : l.Perm l') : median l = median l' := by
  by_cases hl : l = []
  · subst hl
    rw [List.nil_perm.mp h]
  · have hl' : l' ≠ [] := fun h' => hl (List.perm_nil.mp (h' ▸ h))
    rw [median_eq l hl, median_eq l' hl', insertionSort_perm_eq l l' h, h.length_eq]

theorem compute_median (self : TempoCNN) (preds : List (List ℚ)) (o : Outputs)
    (hm : self._aggregationMethod = "median") (hpreds : preds ≠ [])
    (hne : ∀ d ∈ preds, d ≠ []) :
    ∃ g, median (preds.map decodeTempo) = some g ∧
      self.compute preds o =
        ({ globalTempo := g
           localTempo := preds.map decodeTempo
           localTempoProbs := preds.map decodeProb
           warnings := o.warnings }, none) := by
  have hP : preds.map decodeTempo ≠ [] := by simpa using hpreds
  have hmean : ¬ ("median" : String) = "mean" := by decide
  refine ⟨_, median_eq _ hP, ?_⟩
  unfold TempoCNN.compute
  simp only [decode_eq preds hne o, hm, hmean, if_true, if_false, median_eq _ hP]

/-- C6. Median aggregation: on a non-empty sequence of non-empty distributions,
`compute` with the method "median" ends normally and writes to `globalTempo`
the median of `localTempo` by value-sorted order: for the sorted rearrangement
of `localTempo`, the middle element when the length is odd, the average of the
two middle elements when it is even.  Reordering the segments does not change
the result. -/
theorem median_aggregation (self : TempoCNN) (preds : List (List ℚ)) (o : Outputs)
    (hm : self._aggregationMethod = "median") (hpreds : preds ≠ [])
    (hne : ∀ d ∈ preds, d ≠ []) :
    (self.compute preds o).2 = none ∧
    (∃ sorted : List ℚ,
      sorted.Perm (self.compute preds o).1.localTempo ∧ sorted.Sorted (· ≤ ·) ∧
      ((self.compute preds o).1.localTempo.length % 2 = 1 →
        sorted[(self.compute preds o).1.localTempo.length / 2]? =
          some (self.compute preds o).1.globalTempo) ∧
      ((self.compute preds o).1.localTempo.length % 2 = 0 →
        ∃ a b, sorted[(self.compute preds o).1.localTempo.length / 2 - 1]? = some a ∧
          sorted[(self.compute preds o).1.localTempo.length / 2]? = some b ∧
          (self.compute preds o).1.globalTempo = (a + b) / 2)) ∧
    (∀ preds' : List (List ℚ), preds'.Perm preds →
      (self.compute preds' o).1.globalTempo = (self.compute preds o).1.globalTempo) := by
  obtain ⟨g, hg, heq⟩ := compute_median self preds o hm hpreds hne
  have hP : preds.map decodeTempo ≠ [] := by simpa using hpreds
  have hpos : 0 < preds.length := List.length_pos.mpr hpreds
  have hlen : ((preds.map decodeTempo).insertionSort (· ≤ ·)).length = preds.length := by
    rw [List.length_insertionSort, List.length_map]
  rw [median_eq _ hP, List.length_map] at hg
  have hg' := Option.some.inj hg
  have hlt : (self.compute preds o).1.localTempo.length = preds.length := by
    rw [heq, List.length_map]
  rw [hlt]
  refine ⟨by rw [heq], ?_, ?_⟩
  · refine ⟨(preds.map decodeTempo).insertionSort (· ≤ ·), ?_, ?_, ?_, ?_⟩
    · rw [heq]
      exact List.perm_insertionSort _ _
    · exact List.sorted_insertionSort _ _
    · intro hodd
      rw [heq]
      have h2 : preds.length / 2 < ((preds.map decodeTempo).insertionSort (· ≤ ·)).length := by
        omega
      rw [if_neg (by omega)] at hg'
      rw [← hg', List.getElem?_eq_getElem h2]
      rfl
    · intro heven
      rw [heq]
      have h2 : preds.length / 2 < ((preds.map decodeTempo).insertionSort (· ≤ ·)).length := by
        omega
      have h1 : preds.length / 2 - 1 <
          ((preds.map decodeTempo).insertionSort (· ≤ ·)).length := by omega
      rw [if_pos heven] at hg'
      refine ⟨_, _, List.getElem?_eq_getElem h1, List.getElem?_eq_getElem h2, ?_⟩
      rw [← hg', List.getElem?_eq_getElem h1, List.getElem?_eq_getElem h2]
      rfl
  · intro preds' hperm
    have hpreds' : preds' ≠ [] := fun h => hpreds (List.perm_nil.mp (h ▸ hperm.symm))
    have hne' : ∀ d ∈ preds', d ≠ [] := fun d hd => hne d (hperm.mem_iff.mp hd)
    obtain ⟨g', hg2, heq'⟩ := compute_median self preds' o hm hpreds' hne'
    rw [heq, heq']
    have hmed := median_perm _ _ (hperm.map decodeTempo)
    rw [hg2, median_eq _ hP, List.length_map] at hmed
    rw [← hg']
    exact Option.some.inj hmed

theorem compute_example_median :
    (TempoCNN.mk "median").compute [peakAt10, peakAt5, peakAt5, peakAt10] freshOutputs =
      (⟨75 / 2, [40, 35, 35, 40], [1, 1, 1, 1], []⟩, none) := by
  obtain ⟨g, hg, heq⟩ := compute_median (TempoCNN.mk "median")
    [peakAt10, peakAt5, peakAt5, peakAt10] freshOutputs rfl (by decide) (by decide)
  simp only [List.map, decodeTempo_peakAt5, decodeTempo_peakAt10, decodeProb_peakAt5,
    decodeProb_peakAt10] at hg heq
  have hs : List.insertionSort (· ≤ ·) [(40 : ℚ), 35, 35, 40] = [35, 35, 40, 40] := by decide
  have hg2 : g = 75 / 2 := by
    have h := hg
    simp only [median, hs] at h
    norm_num at h
    exact h.symm
  rw [heq, hg2]
  simp [freshOutputs]

/-- C6 at a concrete input: maxima at indices 10, 5, 5, 10 give
`localTempo = [40, 35, 35, 40]`, whose two middle elements in sorted order are
35 and 40, and `globalTempo = 75/2`; the reordered input gives the same. -/
theorem median_aggregation_witness :
    ((TempoCNN.mk "median").compute [peakAt10, peakAt5, peakAt5, peakAt10]
        freshOutputs).1.globalTempo = 75 / 2 ∧
      ((TempoCNN.mk "median").compute [peakAt5, peakAt10, peakAt5, peakAt10]
        freshOutputs).1.globalTempo =
      ((TempoCNN.mk "median").compute [peakAt10, peakAt5, peakAt5, peakAt10]
        freshOutputs).1.globalTempo :=
  ⟨by rw [compute_example_median],
    (median_aggregation (TempoCNN.mk "median") [peakAt10, peakAt5, peakAt5, peakAt10]
      freshOutputs rfl (by decide) (by decide)).2.2
      [peakAt5, peakAt10, peakAt5, peakAt10]
      (List.Perm.swap _ _ _)⟩

/-! ## The aggregation method -/

/-- A stored method that is none of the three lower-case names: the decoding
loop runs first and fills the per-segment sinks, then the last branch of
`compute` throws; `globalTempo` and the warning log are left as they were. -/
theorem compute_bad_method (self : TempoCNN) (preds : List (List ℚ)) (o : Outputs)
    (h1 : self._aggregationMethod ≠ "mean") (h2 : self._aggregationMethod ≠ "median")
    (h3 : self._aggregationMethod ≠ "majority") (hne : ∀ d ∈ preds, d ≠ []) :
    self.compute preds o =
      ({ globalTempo := o.globalTempo
         localTempo := preds.map decodeTempo
         localTempoProbs := preds.map decodeProb
         warnings := o.warnings },
        some (Failure.exception "TempoCNN: Bad 'aggregationMethod' parameter")) := by
  unfold TempoCNN.compute
  simp only [decode_eq preds hne o, h1, h2, h3, if_false]

/-- The body of `configure` (lines 69-79) makes no check of the method: it ends
as the predictor's configuration ends and, when that succeeds, stores the
lower-cased string.  The guard of the code itself is the last branch of
`compute` (line 140): a stored string that is none of the three names makes it
throw, after the decoding loop has written the per-segment sinks. -/
theorem configure_body_stores_any_method (self : TempoCNN) (s : String)
    (preds : List (List ℚ)) (o : Outputs)
    (h1 : toLower s ≠ "mean") (h2 : toLower s ≠ "median") (h3 : toLower s ≠ "majority")
    (hne : ∀ d ∈ preds, d ≠ []) :
    self.configure none s = (TempoCNN.mk (toLower s), none) ∧
    (∀ e : Failure, self.configure (some e) s = (self, some e)) ∧
    (self.configure none s).1.compute preds o =
      ({ globalTempo := o.globalTempo
         localTempo := preds.map decodeTempo
         localTempoProbs := preds.map decodeProb
         warnings := o.warnings },
        some (Failure.exception "TempoCNN: Bad 'aggregationMethod' parameter")) := by
  refine ⟨rfl, fun _ => rfl, ?_⟩
  exact compute_bad_method (self.configure none s).1 preds o h1 h2 h3 hne

theorem aggregationMethodInRange_eq_false (s : String)
    (h1 : toLower s ≠ "mean") (h2 : toLower s ≠ "median") (h3 : toLower s ≠ "majority") :
    aggregationMethodInRange s = false := by
  simp [aggregationMethodInRange, h1, h2, h3]

/-- C7. Unsupported aggregation method: for a string whose lower-cased form is
none of "mean", "median", "majority", the failure is raised at configuration
time.  The value is outside the declared range, configuring the algorithm with
it fails with an error before the body of `configure` runs, so nothing is
stored in the object; and in a use of the algorithm, configuration followed by
`compute`, the run ends with that error without any computation: `compute` is
not reached, no decode step runs, and `localTempo`, `localTempoProbs`,
`globalTempo` and the warning log keep their previous contents.  Values inside
the declared range are handed to the body of `configure` unchanged. -/
theorem unsupported_method_rejected_at_configuration (self : TempoCNN)
    (pc : Option Failure) (s : String) (preds : List (List ℚ)) (o : Outputs)
    (h1 : toLower s ≠ "mean") (h2 : toLower s ≠ "median") (h3 : toLower s ≠ "majority") :
    aggregationMethodInRange s = false ∧
    self.configureWith pc s =
      (self, some (Failure.exception "unsupported aggregation method")) ∧
    self.configureThenCompute pc s preds o =
      (o, some (Failure.exception "unsupported aggregation method")) ∧
    (self.configureThenCompute pc s preds o).1.localTempo = o.localTempo ∧
    (self.configureThenCompute pc s preds o).1.localTempoProbs = o.localTempoProbs ∧
    (∀ t : String, aggregationMethodInRange t = true →
      self.configureWith pc t = self.configure pc t ∧
        (∀ q : Outputs, pc = none →
          self.configureThenCompute pc t preds q = (TempoCNN.mk (toLower t)).compute preds q)) := by
  have hr := aggregationMethodInRange_eq_false s h1 h2 h3
  have hcw : self.configureWith pc s =
      (self, some (Failure.exception "unsupported aggregation method")) := by
    simp [TempoCNN.configureWith, hr]
  have hcc : self.configureThenCompute pc s preds o =
      (o, some (Failure.exception "unsupported aggregation method")) := by
    simp [TempoCNN.configureThenCompute, hcw]
  refine ⟨hr, hcw, hcc, by rw [hcc], by rw [hcc], ?_⟩
  intro t ht
  have hct : self.configureWith pc t = self.configure pc t := by
    simp [TempoCNN.configureWith, ht]
  refine ⟨hct, ?_⟩
  intro q hpc
  subst hpc
  simp [TempoCNN.configureThenCompute, hct, TempoCNN.configure]

/-- C7 at the method "mode", with sinks that hold the result of an earlier
run: configuration fails, and the sinks are exactly as they were.  The method
"Majority" is inside the declared range. -/
theorem unsupported_method_rejected_at_configuration_witness :
    (TempoCNN.mk "majority").configureWith none "mode" =
      (TempoCNN.mk "majority", some (Failure.exception "unsupported aggregation method")) ∧
    (TempoCNN.mk "majority").configureThenCompute none "mode" [peakAt5, peakAt10]
        ⟨35, [35, 35, 40], [1, 1, 1], []⟩ =
      (⟨35, [35, 35, 40], [1, 1, 1], []⟩,
        some (Failure.exception "unsupported aggregation method")) ∧
    aggregationMethodInRange "Majority" = true :=
  ⟨(unsupported_method_rejected_at_configuration (TempoCNN.mk "majority") none "mode"
      [peakAt5, peakAt10] ⟨35, [35, 35, 40], [1, 1, 1], []⟩
      (by decide) (by decide) (by decide)).2.1,
    (unsupported_method_rejected_at_configuration (TempoCNN.mk "majority") none "mode"
      [peakAt5, peakAt10] ⟨35, [35, 35, 40], [1, 1, 1], []⟩
      (by decide) (by decide) (by decide)).2.2.1,
    by decide⟩

/-- C8. Case-insensitive strategy name: for a string `s` whose lower-casing is
"mean", "median" or "majority", configuring with `s` and configuring with the
lower-cased string leave the same object, so every following `compute` writes
the same sinks and ends the same way; `configure` stores the lower-cased
string, and `compute` itself does no normalisation: a stored string other than
the three lower-case names (such as "Mean") makes it throw. -/
theorem strategy_case_insensitive (self : TempoCNN) (pc : Option Failure) (s : String)
    (preds : List (List ℚ)) (o : Outputs)
    (hs : toLower s = "mean" ∨ toLower s = "median" ∨ toLower s = "majority") :
    self.configure pc s = self.configure pc (toLower s) ∧
    (self.configure pc s).1.compute preds o =
      (self.configure pc (toLower s)).1.compute preds o ∧
    (self.configure none s).1._aggregationMethod = toLower s ∧
    (∀ stored : String, stored ≠ "mean" → stored ≠ "median" → stored ≠ "majority" →
      (∀ d ∈ preds, d ≠ []) →
      ((TempoCNN.mk stored).compute preds o).2 =
        some (Failure.exception "TempoCNN: Bad 'aggregationMethod' parameter")) := by
  have hidem : toLower (toLower s) = toLower s := by
    rcases hs with h | h | h <;> rw [h] <;> decide
  have hcfg : self.configure pc s = self.configure pc (toLower s) := by
    cases pc with
    | none => simp only [TempoCNN.configure, hidem]
    | some e => rfl
  refine ⟨hcfg, by rw [hcfg], rfl, ?_⟩
  intro stored h1 h2 h3 hne
  rw [compute_bad_method (TempoCNN.mk stored) preds o h1 h2 h3 hne]

/-- C8 at the strings "MAJORITY" and "Mean". -/
theorem strategy_case_insensitive_witness :
    toLower "MAJORITY" = "majority" ∧
    ((TempoCNN.mk "").configure none "MAJORITY").1.compute [peakAt5, peakAt5, peakAt10]
        freshOutputs =
      ((TempoCNN.mk "").configure none (toLower "MAJORITY")).1.compute
        [peakAt5, peakAt5, peakAt10] freshOutputs ∧
    ((TempoCNN.mk "Mean").compute [peakAt5, peakAt5, peakAt10] freshOutputs).2 =
      some (Failure.exception "TempoCNN: Bad 'aggregationMethod' parameter") :=
  ⟨by decide,
    (strategy_case_insensitive (TempoCNN.mk "") none "MAJORITY" [peakAt5, peakAt5, peakAt10]
      freshOutputs (Or.inr (Or.inr (by decide)))).2.1,
    (strategy_case_insensitive (TempoCNN.mk "") none "MAJORITY" [peakAt5, peakAt5, peakAt10]
      freshOutputs (Or.inr (Or.inr (by decide)))).2.2.2 "Mean" (by decide) (by decide)
      (by decide) (by decide)⟩

/-! ## SpectralPeaks -/

theorem spectralPeaks_configure_eq (pd : ParameterMap → Option Failure)
    (p : SpectralPeaksParams) (t : String)
    (h : (toLower p.orderBy = "magnitude" ∧ t = "amplitude") ∨
      (toLower p.orderBy = "frequency" ∧ t = "position")) :
    SpectralPeaks.configure pd p =
      { forwarded := some
          [("range", Parameter.real (p.sampleRate / 2)),
            ("maxPeaks", Parameter.integer p.maxPeaks),
            ("minPosition", Parameter.real p.minFrequency),
            ("maxPosition", Parameter.real p.maxFrequency),
            ("threshold", Parameter.real p.magnitudeThreshold),
            ("orderBy", Parameter.string t)]
        raised := pd
          [("range", Parameter.real (p.sampleRate / 2)),
            ("maxPeaks", Parameter.integer p.maxPeaks),
            ("minPosition", Parameter.real p.minFrequency),
            ("maxPosition", Parameter.real p.maxFrequency),
            ("threshold", Parameter.real p.magnitudeThreshold),
            ("orderBy", Parameter.string t)] } := by
  have hfm : ¬ ("frequency" : String) = "magnitude" := by decide
  unfold SpectralPeaks.configure
  rcases h with ⟨h1, rfl⟩ | ⟨h1, rfl⟩
  · simp [h1, ParameterMap.add, List.filter]
  · simp [h1, hfm, ParameterMap.add, List.filter]

theorem spectralPeaks_configure_unsupported (pd : ParameterMap → Option Failure)
    (p : SpectralPeaksParams) (h1 : toLower p.orderBy ≠ "magnitude")
    (h2 : toLower p.orderBy ≠ "frequency") :
    SpectralPeaks.configure pd p =
      { forwarded := none
        raised := some (Failure.exception
          ("Unsupported ordering type: '" ++ toLower p.orderBy ++ "'")) } := by
  unfold SpectralPeaks.configure
  simp only [h1, h2, if_false]

/-- C9 as stated fails on the code: `orderBy = "magnitude"` is a supported
value, the map is built and handed to the peak detector with `orderBy` bound to
"amplitude", and when the peak detector's `configure` on line 52 throws,
`SpectralPeaks::configure` ends with that error.  So `configure` does not
succeed for every supported `orderBy`: the claimed equivalence is false. -/
theorem orderBy_supported_but_configure_fails :
    toLower "magnitude" = "magnitude" ∧
    (SpectralPeaks.configure refusingPeakDetect ⟨44100, 100, 0, 5000, 0, "magnitude"⟩).forwarded
      = some [("range", Parameter.real (44100 / 2)), ("maxPeaks", Parameter.integer 100),
          ("minPosition", Parameter.real 0), ("maxPosition", Parameter.real 5000),
          ("threshold", Parameter.real 0), ("orderBy", Parameter.string "amplitude")] ∧
    (SpectralPeaks.configure refusingPeakDetect ⟨44100, 100, 0, 5000, 0, "magnitude"⟩).raised
      = some (Failure.exception "PeakDetection: configuration refused") ∧
    ¬ ((SpectralPeaks.configure refusingPeakDetect
          ⟨44100, 100, 0, 5000, 0, "magnitude"⟩).raised = none ↔
        (toLower "magnitude" = "magnitude" ∨ toLower "magnitude" = "frequency")) := by
  have heq := spectralPeaks_configure_eq refusingPeakDetect
    ⟨44100, 100, 0, 5000, 0, "magnitude"⟩ "amplitude" (Or.inl ⟨by decide, rfl⟩)
  rw [heq]
  refine ⟨by decide, rfl, rfl, ?_⟩
  intro h
  have h2 := h.mpr (Or.inl (by decide))
  simp [refusingPeakDetect] at h2

/-- C9, amended.  The peak detector's own `configure` is outside the sources;
`pd` is its outcome on the map it receives.
* The call `_peakDetect->configure` is reached exactly when the lower-cased
  `orderBy` is "magnitude" or "frequency"; for "magnitude" the forwarded map
  binds `orderBy` to "amplitude", for "frequency" to "position".
* Once the call is reached `configure` ends as the peak detector's `configure`
  ends on that map: it succeeds exactly when the lower-cased `orderBy` is
  supported and the peak detector accepts the forwarded map, and a failure of
  the peak detector is passed on unchanged.  With a peak detector that accepts
  what it is given, `configure` succeeds if and only if the lower-cased
  `orderBy` is "magnitude" or "frequency".
* For every other value `configure` throws "Unsupported ordering type" and the
  peak detector is not configured. -/
theorem orderBy_translation (pd : ParameterMap → Option Failure) (p : SpectralPeaksParams) :
    ((SpectralPeaks.configure pd p).forwarded.isSome ↔
      (toLower p.orderBy = "magnitude" ∨ toLower p.orderBy = "frequency")) ∧
    ((SpectralPeaks.configure pd p).raised = none ↔
      (toLower p.orderBy = "magnitude" ∨ toLower p.orderBy = "frequency") ∧
        ∃ cfg, (SpectralPeaks.configure pd p).forwarded = some cfg ∧ pd cfg = none) ∧
    ((∀ cfg, pd cfg = none) →
      ((SpectralPeaks.configure pd p).raised = none ↔
        (toLower p.orderBy = "magnitude" ∨ toLower p.orderBy = "frequency"))) ∧
    (toLower p.orderBy = "magnitude" →
      ∃ cfg, (SpectralPeaks.configure pd p).forwarded = some cfg ∧
        cfg.lookup "orderBy" = some (Parameter.string "amplitude") ∧
        (SpectralPeaks.configure pd p).raised = pd cfg) ∧
    (toLower p.orderBy = "frequency" →
      ∃ cfg, (SpectralPeaks.configure pd p).forwarded = some cfg ∧
        cfg.lookup "orderBy" = some (Parameter.string "position") ∧
        (SpectralPeaks.configure pd p).raised = pd cfg) ∧
    (toLower p.orderBy ≠ "magnitude" → toLower p.orderBy ≠ "frequency" →
      (SpectralPeaks.configure pd p).forwarded = none ∧
        (SpectralPeaks.configure pd p).raised = some (Failure.exception
          ("Unsupported ordering type: '" ++ toLower p.orderBy ++ "'"))) := by
  by_cases hm : toLower p.orderBy = "magnitude"
  · have heq := spectralPeaks_configure_eq pd p "amplitude" (Or.inl ⟨hm, rfl⟩)
    have hf : toLower p.orderBy ≠ "frequency" := by rw [hm]; decide
    rw [heq]
    refine ⟨by simp [hm], ?_, ?_, ?_, fun h => absurd h hf, fun h => absurd hm h⟩
    · constructor
      · intro h
        exact ⟨Or.inl hm, _, rfl, h⟩
      · rintro ⟨-, cfg, hc, hp⟩
        rw [← Option.some.inj hc] at hp
        exact hp
    · intro hpd
      exact ⟨fun _ => Or.inl hm, fun _ => hpd _⟩
    · intro _
      exact ⟨_, rfl, by simp [List.lookup], rfl⟩
  · by_cases hf : toLower p.orderBy = "frequency"
    · have heq := spectralPeaks_configure_eq pd p "position" (Or.inr ⟨hf, rfl⟩)
      rw [heq]
      refine ⟨by simp [hf], ?_, ?_, fun h => absurd h hm, ?_, fun _ h => absurd hf h⟩
      · constructor
        · intro h
          exact ⟨Or.inr hf, _, rfl, h⟩
        · rintro ⟨-, cfg, hc, hp⟩
          rw [← Option.some.inj hc] at hp
          exact hp
      · intro hpd
        exact ⟨fun _ => Or.inr hf, fun _ => hpd _⟩
      · intro _
        exact ⟨_, rfl, by simp [List.lookup], rfl⟩
    · rw [spectralPeaks_configure_unsupported pd p hm hf]
      refine ⟨by simp [hm, hf], ?_, ?_, fun h => absurd h hm, fun h => absurd h hf,
        fun _ _ => ⟨rfl, rfl⟩⟩
      · constructor
        · intro h
          exact absurd h (by simp)
        · rintro ⟨h, -⟩
          rcases h with h | h
          · exact absurd h hm
          · exact absurd h hf
      · intro _
        constructor
        · intro h
          exact absurd h (by simp)
        · intro h
          rcases h with h | h
          · exact absurd h hm
          · exact absurd h hf

/-- C9 at concrete parameters, with a peak detector that accepts every map:
"Magnitude" is forwarded as "amplitude" and `configure` succeeds; "loudness" is
rejected and nothing is forwarded. -/
theorem orderBy_translation_witness :
    (∃ cfg, (SpectralPeaks.configure (fun _ => none)
        ⟨44100, 100, 0, 5000, 0, "Magnitude"⟩).forwarded = some cfg ∧
      cfg.lookup "orderBy" = some (Parameter.string "amplitude") ∧
      (SpectralPeaks.configure (fun _ => none) ⟨44100, 100, 0, 5000, 0, "Magnitude"⟩).raised
        = (fun _ => none) cfg) ∧
    ((SpectralPeaks.configure (fun _ => none) ⟨44100, 100, 0, 5000, 0, "loudness"⟩).forwarded
        = none ∧
      (SpectralPeaks.configure (fun _ => none) ⟨44100, 100, 0, 5000, 0, "loudness"⟩).raised
        = some (Failure.exception
          ("Unsupported ordering type: '" ++ toLower "loudness" ++ "'"))) :=
  ⟨(orderBy_translation (fun _ => none) ⟨44100, 100, 0, 5000, 0, "Magnitude"⟩).2.2.2.1
      (by decide),
    (orderBy_translation (fun _ => none) ⟨44100, 100, 0, 5000, 0, "loudness"⟩).2.2.2.2.2
      (by decide) (by decide)⟩

/-- C10. SpectralPeaks parameter remapping: whenever the lower-cased `orderBy`
is "magnitude" or "frequency", the map handed to the peak detector is exactly
`range = sampleRate / 2`, `maxPeaks = maxPeaks`, `minPosition = minFrequency`,
`maxPosition = maxFrequency`, `threshold = magnitudeThreshold` and the
translated `orderBy`; it has these six keys and no other. -/
theorem parameter_remapping (pd : ParameterMap → Option Failure) (p : SpectralPeaksParams)
    (h : toLower p.orderBy = "magnitude" ∨ toLower p.orderBy = "frequency") :
    (SpectralPeaks.configure pd p).forwarded = some
      [("range", Parameter.real (p.sampleRate / 2)),
        ("maxPeaks", Parameter.integer p.maxPeaks),
        ("minPosition", Parameter.real p.minFrequency),
        ("maxPosition", Parameter.real p.maxFrequency),
        ("threshold", Parameter.real p.magnitudeThreshold),
        ("orderBy", Parameter.string
          (if toLower p.orderBy = "magnitude" then "amplitude" else "position"))] := by
  rcases h with h | h
  · rw [spectralPeaks_configure_eq pd p "amplitude" (Or.inl ⟨h, rfl⟩), if_pos h]
  · have hm : toLower p.orderBy ≠ "magnitude" := by rw [h]; decide
    rw [spectralPeaks_configure_eq pd p "position" (Or.inr ⟨h, rfl⟩), if_neg hm]

/-- C10 at concrete parameters: a sample rate of 44100 is forwarded as the
range 22050. -/
theorem parameter_remapping_witness :
    (SpectralPeaks.configure (fun _ => none)
        ⟨44100, 100, 20, 5000, 1 / 2, "Frequency"⟩).forwarded = some
      [("range", Parameter.real 22050), ("maxPeaks", Parameter.integer 100),
        ("minPosition", Parameter.real 20), ("maxPosition", Parameter.real 5000),
        ("threshold", Parameter.real (1 / 2)), ("orderBy", Parameter.string "position")] := by
  have h := parameter_remapping (fun _ => none) ⟨44100, 100, 20, 5000, 1 / 2, "Frequency"⟩
    (Or.inr (by decide))
  have h2 : toLower "Frequency" ≠ "magnitude" := by decide
  rw [h]
  simp only [if_neg h2]
  norm_num

/-! ## Safety of the index reads -/

/-- C11. No error under the stated precondition: on a non-empty sequence of
non-empty distributions and with a stored method among "mean", "median" and
"majority", the run of `compute` ends normally (no out-of-bounds read, no
undefined helper value, no exception).  The reads themselves are in range: the
index `argmax` selects lies inside its distribution, `localTempo` has one entry
for each `i` below `_predictions.size()`, and `localTempo[0]` exists; the
decoding loop and the voting loop run to their end. -/
theorem no_error_under_precondition (self : TempoCNN) (preds : List (List ℚ)) (o : Outputs)
    (hm : self._aggregationMethod = "mean" ∨ self._aggregationMethod = "median" ∨
      self._aggregationMethod = "majority")
    (hpreds : preds ≠ []) (hne : ∀ d ∈ preds, d ≠ []) :
    (self.compute preds o).2 = none ∧
    (∀ d ∈ preds, ∃ index p, argmax d = some index ∧ index < d.length ∧ d[index]? = some p) ∧
    (∀ i, i < preds.length → ∃ x, (self.compute preds o).1.localTempo[i]? = some x) ∧
    (∃ t0, (self.compute preds o).1.localTempo[0]? = some t0) ∧
    (∃ o2, decodeLoop preds preds.length 0
        { o with localTempo := resize o.localTempo preds.length
                 localTempoProbs := resize o.localTempoProbs preds.length } = (o2, none)) ∧
    (∀ s0 : Votes, ∃ s, majorityLoop (self.compute preds o).1.localTempo preds.length 0 s0
        = Except.ok s) := by
  have hloc := (compute_local self preds o hne).1
  have hlen : (self.compute preds o).1.localTempo.length = preds.length := by
    rw [hloc, List.length_map]
  have hpos : 0 < preds.length := List.length_pos.mpr hpreds
  refine ⟨?_, ?_, ?_, ?_, ?_, ?_⟩
  · rcases hm with h | h | h
    · rw [compute_mean self preds o h hpreds hne]
    · obtain ⟨g, -, heq⟩ := compute_median self preds o h hpreds hne
      rw [heq]
    · rw [(compute_majority self preds o h hpreds hne).2]
  · intro d hd
    exact ⟨argmaxIndex d, decodeProb d, argmax_eq_some d (hne d hd), argmaxIndex_lt d (hne d hd),
      argmaxIndex_getElem d (hne d hd)⟩
  · intro i hi
    exact ⟨_, List.getElem?_eq_getElem (by omega)⟩
  · exact ⟨_, List.getElem?_eq_getElem (by omega)⟩
  · exact ⟨_, decode_eq preds hne o⟩
  · intro s0
    exact ⟨_, majorityLoop_eq_foldl _ preds.length 0 s0 (by omega)⟩

/-- C11 at the specification's example, for each of the three methods. -/
theorem no_error_under_precondition_witness :
    ((TempoCNN.mk "mean").compute [peakAt5, peakAt5, peakAt10] freshOutputs).2 = none ∧
    ((TempoCNN.mk "median").compute [peakAt5, peakAt5, peakAt10] freshOutputs).2 = none ∧
    ((TempoCNN.mk "majority").compute [peakAt5, peakAt5, peakAt10] freshOutputs).2 = none :=
  ⟨(no_error_under_precondition (TempoCNN.mk "mean") [peakAt5, peakAt5, peakAt10]
      freshOutputs (Or.inl rfl) (by decide) (by decide)).1,
    (no_error_under_precondition (TempoCNN.mk "median") [peakAt5, peakAt5, peakAt10]
      freshOutputs (Or.inr (Or.inl rfl)) (by decide) (by decide)).1,
    (no_error_under_precondition (TempoCNN.mk "majority") [peakAt5, peakAt5, peakAt10]
      freshOutputs (Or.inr (Or.inr rfl)) (by decide) (by decide)).1⟩

/-- The run on an empty segment sequence with the method "majority": the two
`resize` calls empty the per-segment sinks, the decoding loop does nothing, and
the read `localTempo[0]` on line 109 is past the end. -/
theorem compute_majority_empty (self : TempoCNN) (o : Outputs)
    (hm : self._aggregationMethod = "majority") :
    self.compute [] o =
      ({ globalTempo := o.globalTempo, localTempo := [], localTempoProbs := []
         warnings := o.warnings }, some Failure.outOfBounds) := by
  have hmean : ¬ ("majority" : String) = "mean" := by decide
  have hmedian : ¬ ("majority" : String) = "median" := by decide
  simp [TempoCNN.compute, decodeLoop, resize, hm, hmean, hmedian]

/-- C12, the code at the failing input: with an empty segment sequence and the
method "majority" the length is not checked; the first statement of the branch
reads `localTempo[0]` of the vector just resized to length 0.  The run ends at
that out-of-bounds access, not with an exception: the code raises no error of
its own, `globalTempo` keeps its previous content and nothing is logged. -/
theorem majority_empty_input :
    (TempoCNN.mk "majority").compute [] freshOutputs =
        (⟨0, [], [], []⟩, some Failure.outOfBounds) ∧
      ((TempoCNN.mk "majority").compute [] freshOutputs).1.localTempo[0]? = none ∧
      (∀ msg : String, ((TempoCNN.mk "majority").compute [] freshOutputs).2 ≠
        some (Failure.exception msg)) := by
  rw [compute_majority_empty (TempoCNN.mk "majority") freshOutputs rfl]
  refine ⟨rfl, rfl, ?_⟩
  intro msg h
  cases h

/-! ## Order of the segments -/

/-- The majority branch when a value of `localTempo` has a strict plurality:
that value is written to `globalTempo`. -/
theorem compute_majority_plurality (self : TempoCNN) (preds : List (List ℚ)) (o : Outputs)
    (v : ℚ) (hm : self._aggregationMethod = "majority") (hpreds : preds ≠ [])
    (hne : ∀ d ∈ preds, d ≠ []) (hv : v ∈ preds.map decodeTempo)
    (hplur : ∀ u ∈ preds.map decodeTempo, u ≠ v →
      (preds.map decodeTempo).count u < (preds.map decodeTempo).count v) :
    self.compute preds o =
      ({ globalTempo := v
         localTempo := preds.map decodeTempo
         localTempoProbs := preds.map decodeProb
         warnings := o.warnings }, none) := by
  obtain ⟨hinv, heq⟩ := compute_majority self preds o hm hpreds hne
  have hP : preds.map decodeTempo ≠ [] := List.ne_nil_of_mem hv
  have hwin : ((finalVotes (preds.map decodeTempo)).mostVotedCandidate : ℚ) = v := by
    by_contra hcon
    have h1 := hplur _ (hinv.mem hP) hcon
    have h2 := hinv.max v hv
    have h3 := hinv.votes hP
    omega
  rw [heq, hwin]

/-- C13. Order dependence of majority vote.  The two segment sequences with
maxima at indices 5, 10 and at indices 10, 5 are permutations of each other,
and `compute` with the method "majority" returns 35 for the first
(`localTempo = [35, 40]`) and 40 for the second (`localTempo = [40, 35]`).
When a value of `localTempo` has a strict plurality, every permutation of the
segments returns the same `globalTempo`, that value. -/
theorem majority_order_dependence :
    ([peakAt5, peakAt10].Perm [peakAt10, peakAt5] ∧
      ((TempoCNN.mk "majority").compute [peakAt5, peakAt10] freshOutputs).1.localTempo
        = [35, 40] ∧
      ((TempoCNN.mk "majority").compute [peakAt5, peakAt10] freshOutputs).1.globalTempo = 35 ∧
      ((TempoCNN.mk "majority").compute [peakAt10, peakAt5] freshOutputs).1.localTempo
        = [40, 35] ∧
      ((TempoCNN.mk "majority").compute [peakAt10, peakAt5] freshOutputs).1.globalTempo = 40) ∧
    (∀ (self : TempoCNN) (preds preds' : List (List ℚ)) (o : Outputs) (v : ℚ),
      self._aggregationMethod = "majority" → preds ≠ [] → (∀ d ∈ preds, d ≠ []) →
      v ∈ (self.compute preds o).1.localTempo →
      (∀ u ∈ (self.compute preds o).1.localTempo, u ≠ v →
        (self.compute preds o).1.localTempo.count u <
          (self.compute preds o).1.localTempo.count v) →
      preds'.Perm preds →
      (self.compute preds' o).1.globalTempo = v ∧ (self.compute preds o).1.globalTempo = v) := by
  refine ⟨⟨List.Perm.swap _ _ _, ?_, ?_, ?_, ?_⟩, ?_⟩
  · rw [compute_tie_35_40]
  · rw [compute_tie_35_40]
  · rw [compute_tie_40_35]
  · rw [compute_tie_40_35]
  · intro self preds preds' o v hm hpreds hne hv hplur hperm
    have hloc := (compute_local self preds o hne).1
    rw [hloc] at hv hplur
    have hpreds' : preds' ≠ [] := fun h => hpreds (List.perm_nil.mp (h ▸ hperm.symm))
    have hne' : ∀ d ∈ preds', d ≠ [] := fun d hd => hne d (hperm.mem_iff.mp hd)
    have hp : (preds'.map decodeTempo).Perm (preds.map decodeTempo) := hperm.map decodeTempo
    have hv' : v ∈ preds'.map decodeTempo := hp.mem_iff.mpr hv
    have hplur' : ∀ u ∈ preds'.map decodeTempo, u ≠ v →
        (preds'.map decodeTempo).count u < (preds'.map decodeTempo).count v := by
      intro u hu huv
      rw [hp.count_eq u, hp.count_eq v]
      exact hplur u (hp.mem_iff.mp hu) huv
    rw [compute_majority_plurality self preds' o v hm hpreds' hne' hv' hplur',
      compute_majority_plurality self preds o v hm hpreds hne hv hplur]
    exact ⟨rfl, rfl⟩

/-- C13 at the specification's example and one of its reorderings: maxima at
indices 5, 5, 10 and at indices 10, 5, 5 both give 35. -/
theorem majority_order_dependence_witness :
    ((TempoCNN.mk "majority").compute [peakAt10, peakAt5, peakAt5] freshOutputs).1.globalTempo
        = 35 ∧
      ((TempoCNN.mk "majority").compute [peakAt5, peakAt5, peakAt10] freshOutputs).1.globalTempo
        = 35 :=
  majority_order_dependence.2 (TempoCNN.mk "majority") [peakAt5, peakAt5, peakAt10]
    [peakAt10, peakAt5, peakAt5] freshOutputs 35 rfl (by decide) (by decide)
    (by rw [compute_example_majority]; simp)
    (by
      rw [compute_example_majority]
      intro u hu hne
      have hu40 : u = 40 := by
        simp only [List.mem_cons, List.mem_singleton, List.not_mem_nil, or_false] at hu
        rcases hu with h | h | h
        · exact absurd h hne
        · exact absurd h hne
        · exact h
      subst hu40
      simp [List.count_cons])
    (@List.perm_append_comm _ [peakAt10] [peakAt5, peakAt5])

/-! ## The seen set -/

theorem mem_firstOccurrences (l : List Int) (c : Int) : c ∈ firstOccurrences l ↔ c ∈ l := by
  induction l with
  | nil => simp [firstOccurrences]
  | cons a as ih =>
    simp only [firstOccurrences, List.mem_cons, List.mem_filter, ih, decide_eq_true_eq]
    constructor
    · rintro (h | ⟨h, -⟩)
      · exact Or.inl h
      · exact Or.inr h
    · intro h
      by_cases hca : c = a
      · exact Or.inl hca
      · rcases h with h | h
        · exact absurd h hca
        · exact Or.inr ⟨h, hca⟩

theorem nodup_firstOccurrences (l : List Int) : (firstOccurrences l).Nodup := by
  induction l with
  | nil => simp [firstOccurrences]
  | cons a as ih =>
    simp only [firstOccurrences, List.nodup_cons, List.mem_filter, decide_eq_true_eq]
    exact ⟨fun h => h.2 rfl, ih.filter _⟩

theorem firstOccurrences_concat (l : List Int) (c : Int) :
    firstOccurrences (l ++ [c]) =
      if c ∈ l then firstOccurrences l else firstOccurrences l ++ [c] := by
  induction l with
  | nil => simp [firstOccurrences]
  | cons a as ih =>
    have hcons : ∀ l : List Int,
        firstOccurrences (a :: l) = a :: (firstOccurrences l).filter (fun b => b ≠ a) :=
      fun _ => rfl
    rw [List.cons_append, hcons, hcons, ih]
    by_cases hca : c = a
    · subst hca
      by_cases hmem : c ∈ as
      · simp [hmem]
      · simp [hmem, List.filter_append]
    · by_cases hmem : c ∈ as
      · simp [hmem]
      · simp [hmem, List.filter_append, hca]

theorem length_firstOccurrences (l : List Int) :
    (firstOccurrences l).length = l.toFinset.card := by
  rw [← List.toFinset_card_of_nodup (nodup_firstOccurrences l)]
  congr 1
  ext c
  simp [mem_firstOccurrences]

theorem voteStep_checked (lt : List ℚ) (s : Votes) (x : ℚ) :
    (voteStep lt s x).checked =
      if toInt x ∈ s.checked then s.checked else s.checked ++ [toInt x] := by
  unfold voteStep
  by_cases h : toInt x ∈ s.checked
  · simp [h]
  · simp only [h, if_false]
    split_ifs <;> rfl

theorem foldl_voteStep_checked (lt : List ℚ) :
    ∀ (S : List ℚ) (Q : List Int) (s : Votes), s.checked = firstOccurrences Q →
      (S.foldl (voteStep lt) s).checked = firstOccurrences (Q ++ S.map toInt) := by
  intro S
  induction S with
  | nil => intro Q s h; simpa using h
  | cons x S ih =>
    intro Q s h
    have hstep : (voteStep lt s x).checked = firstOccurrences (Q ++ [toInt x]) := by
      rw [voteStep_checked, firstOccurrences_concat, h]
      simp only [mem_firstOccurrences]
    have := ih (Q ++ [toInt x]) (voteStep lt s x) hstep
    simpa using this

/-- C14. Seen-set invariant of the majority loop: started with an empty
`checked` (line 112), after the first `k` entries of `localTempo` have been
processed the loop has ended normally so far, `checked` has no duplicates and
is exactly the distinct integer-truncated values of those `k` entries in order
of first occurrence.  So the lookup of line 117 skips the next entry exactly
when its candidate occurred among the earlier entries: votes are counted at the
first occurrence of each distinct candidate and nowhere else, and the number
of candidates counted, the length of `checked`, is the number of distinct
candidate values seen. -/
theorem seen_set_invariant (lt : List ℚ) (k : Nat) (s0 : Votes) (hk : k ≤ lt.length)
    (h0 : s0.checked = []) :
    ∃ s, majorityLoop lt k 0 s0 = Except.ok s ∧
      s.checked.Nodup ∧
      s.checked = firstOccurrences ((lt.take k).map toInt) ∧
      (∀ c, c ∈ s.checked ↔ c ∈ (lt.take k).map toInt) ∧
      s.checked.length = ((lt.take k).map toInt).toFinset.card ∧
      (∀ x, lt[k]? = some x →
        ((toInt x ∈ s.checked ↔ toInt x ∈ (lt.take k).map toInt) ∧
          (toInt x ∈ s.checked → voteStep lt s x = s) ∧
          (toInt x ∉ s.checked → (voteStep lt s x).checked = s.checked ++ [toInt x]))) := by
  have hloop := majorityLoop_eq_foldl lt k 0 s0 (by omega)
  rw [List.drop_zero] at hloop
  have hc := foldl_voteStep_checked lt (lt.take k) [] s0 (by rw [h0]; rfl)
  rw [List.nil_append] at hc
  refine ⟨_, hloop, ?_, hc, ?_, ?_, ?_⟩
  · rw [hc]
    exact nodup_firstOccurrences _
  · intro c
    rw [hc, mem_firstOccurrences]
  · rw [hc, length_firstOccurrences]
  · intro x _
    refine ⟨by rw [hc, mem_firstOccurrences], ?_, ?_⟩
    · intro h
      simp [voteStep, h]
    · intro h
      rw [voteStep_checked, if_neg h]

theorem toInt_decode_35_35_40 : List.map toInt [(35 : ℚ), 35, 40] = [35, 35, 40] := by
  simp [toInt_35, toInt_40]

/-- C14 at `localTempo = [35, 35, 40]`: after the whole run `checked` is
`[35, 40]`, two candidates for two distinct values. -/
theorem seen_set_invariant_witness :
    ∃ s, majorityLoop [35, 35, 40] 3 0 ⟨35, 35, 0, 0, []⟩ = Except.ok s ∧
      s.checked = [35, 40] := by
  obtain ⟨s, h1, -, h3, -⟩ :=
    seen_set_invariant [35, 35, 40] 3 ⟨35, 35, 0, 0, []⟩ (by decide) rfl
  refine ⟨s, h1, ?_⟩
  rw [h3, List.take_of_length_le (by decide), toInt_decode_35_35_40]
  decide

/-! ## The runner-up -/

/-- The runner-up holds a displaced winner: whenever `secondVotes` is not 0 it
is the vote count of `secondCandidate`, and the same for the winner. -/
theorem foldl_voteStep_second (lt : List ℚ) :
    ∀ (S : List ℚ) (s : Votes),
      (s.secondVotes = 0 ∨ s.secondVotes = lt.count (s.secondCandidate : ℚ)) →
      (s.mostVotedVotes = 0 ∨ s.mostVotedVotes = lt.count (s.mostVotedCandidate : ℚ)) →
      ((S.foldl (voteStep lt) s).secondVotes = 0 ∨
        (S.foldl (voteStep lt) s).secondVotes =
          lt.count ((S.foldl (voteStep lt) s).secondCandidate : ℚ)) := by
  intro S
  induction S with
  | nil => intro s h _; exact h
  | cons x S ih =>
    intro s h2 h1
    rw [List.foldl_cons]
    by_cases hseen : toInt x ∈ s.checked
    · have hstep : voteStep lt s x = s := by simp [voteStep, hseen]
      rw [hstep]
      exact ih s h2 h1
    · by_cases hgt : lt.count ((toInt x : Int) : ℚ) > s.mostVotedVotes
      · have hstep : voteStep lt s x =
            { mostVotedCandidate := toInt x, secondCandidate := s.mostVotedCandidate
              mostVotedVotes := lt.count ((toInt x : Int) : ℚ)
              secondVotes := s.mostVotedVotes
              checked := s.checked ++ [toInt x] } := by
          simp [voteStep, hseen, hgt]
        rw [hstep]
        exact ih _ h1 (Or.inr rfl)
      · have hstep : voteStep lt s x = { s with checked := s.checked ++ [toInt x] } := by
          simp [voteStep, hseen, hgt]
        rw [hstep]
        exact ih _ h2 h1

theorem finalVotes_35_35_35_40_40 :
    finalVotes [35, 35, 35, 40, 40] = ⟨35, 35, 3, 0, [35, 40]⟩ := by
  simp [finalVotes, voteStep, toInt_35, toInt_40, List.count_cons]

/-- C15. Tie warning is unreachable on non-empty input: on a non-empty sequence
of non-empty distributions the voting loop ends with
`secondVotes < mostVotedVotes` and `mostVotedVotes ≥ 1`, where `secondVotes` is
0 or the vote count of `secondCandidate`, a displaced winner; so the test
`secondVotes == mostVotedVotes` of line 133 is false and `compute` with the
method "majority" leaves the warning log as it was.  `secondCandidate` is not
the candidate with the second-highest count: `localTempo = [35, 35, 35, 40, 40]`
ends with `secondCandidate = 35` and `secondVotes = 0` although 40 has two
votes. -/
theorem tie_warning_unreachable (self : TempoCNN) (preds : List (List ℚ)) (o : Outputs)
    (hm : self._aggregationMethod = "majority") (hpreds : preds ≠ [])
    (hne : ∀ d ∈ preds, d ≠ []) :
    majorityLoop (self.compute preds o).1.localTempo preds.length 0
        { mostVotedCandidate := toInt ((self.compute preds o).1.localTempo.headD 0)
          secondCandidate := toInt ((self.compute preds o).1.localTempo.headD 0)
          mostVotedVotes := 0, secondVotes := 0, checked := [] } =
      Except.ok (finalVotes (self.compute preds o).1.localTempo) ∧
    (finalVotes (self.compute preds o).1.localTempo).secondVotes <
      (finalVotes (self.compute preds o).1.localTempo).mostVotedVotes ∧
    1 ≤ (finalVotes (self.compute preds o).1.localTempo).mostVotedVotes ∧
    ((finalVotes (self.compute preds o).1.localTempo).secondVotes = 0 ∨
      (finalVotes (self.compute preds o).1.localTempo).secondVotes =
        (self.compute preds o).1.localTempo.count
          ((finalVotes (self.compute preds o).1.localTempo).secondCandidate : ℚ)) ∧
    (self.compute preds o).1.warnings = o.warnings ∧
    (self.compute preds o).2 = none ∧
    ((finalVotes [35, 35, 35, 40, 40]).secondCandidate = 35 ∧
      (finalVotes [35, 35, 35, 40, 40]).secondVotes = 0 ∧
      List.count (40 : ℚ) [35, 35, 35, 40, 40] = 2) := by
  obtain ⟨hinv, heq⟩ := compute_majority self preds o hm hpreds hne
  have hP : preds.map decodeTempo ≠ [] := by simpa using hpreds
  have hloc : (self.compute preds o).1.localTempo = preds.map decodeTempo := by rw [heq]
  rw [hloc]
  have hbelow := hinv.below hP
  refine ⟨?_, hbelow, by omega, ?_, by rw [heq], by rw [heq], ?_⟩
  · have h := majorityLoop_eq_foldl (preds.map decodeTempo) preds.length 0
      { mostVotedCandidate := toInt ((preds.map decodeTempo).headD 0)
        secondCandidate := toInt ((preds.map decodeTempo).headD 0)
        mostVotedVotes := 0, secondVotes := 0, checked := [] } (by simp)
    rw [List.drop_zero, List.take_of_length_le (by simp)] at h
    exact h
  · exact foldl_voteStep_second (preds.map decodeTempo) (preds.map decodeTempo) _
      (Or.inl rfl) (Or.inl rfl)
  · rw [finalVotes_35_35_35_40_40]
    refine ⟨rfl, rfl, ?_⟩
    simp [List.count_cons]

/-- C15 at maxima 5, 5, 5, 10, 10: the run logs nothing. -/
theorem tie_warning_unreachable_witness :
    ((TempoCNN.mk "majority").compute [peakAt5, peakAt5, peakAt5, peakAt10, peakAt10]
        freshOutputs).1.warnings = freshOutputs.warnings ∧
      ((TempoCNN.mk "majority").compute [peakAt5, peakAt5, peakAt5, peakAt10, peakAt10]
        freshOutputs).2 = none :=
  ⟨(tie_warning_unreachable (TempoCNN.mk "majority")
      [peakAt5, peakAt5, peakAt5, peakAt10, peakAt10] freshOutputs rfl (by decide)
      (by decide)).2.2.2.2.1,
    (tie_warning_unreachable (TempoCNN.mk "majority")
      [peakAt5, peakAt5, peakAt5, peakAt10, peakAt10] freshOutputs rfl (by decide)
      (by decide)).2.2.2.2.2.1⟩

/-! ## The loop without the seen set -/

/-- The loop with the `checked` lookup and the loop without it keep the same
winner and runner-up, entry by entry. -/
theorem foldl_naive_agrees (lt : List ℚ) :
    ∀ (S P : List ℚ) (s t : Votes), VotesInv lt P s →
      (s.mostVotedCandidate = t.mostVotedCandidate ∧ s.secondCandidate = t.secondCandidate ∧
        s.mostVotedVotes = t.mostVotedVotes ∧ s.secondVotes = t.secondVotes) →
      (∀ x ∈ S, ((toInt x : Int) : ℚ) = x ∧ 0 < lt.count x) →
      ((S.foldl (voteStep lt) s).mostVotedCandidate =
          (S.foldl (naiveVoteStep lt) t).mostVotedCandidate ∧
        (S.foldl (voteStep lt) s).secondCandidate =
          (S.foldl (naiveVoteStep lt) t).secondCandidate ∧
        (S.foldl (voteStep lt) s).mostVotedVotes =
          (S.foldl (naiveVoteStep lt) t).mostVotedVotes ∧
        (S.foldl (voteStep lt) s).secondVotes =
          (S.foldl (naiveVoteStep lt) t).secondVotes) := by
  intro S
  induction S with
  | nil => intro P s t _ h _; exact h
  | cons x S ih =>
    intro P s t hinv hagree hS
    obtain ⟨hx, hpos⟩ := hS x (List.mem_cons_self _ _)
    obtain ⟨a1, a2, a3, a4⟩ := hagree
    have hnext := votesInv_step lt P s x hinv hx hpos
    rw [List.foldl_cons, List.foldl_cons]
    apply ih (P ++ [x]) _ _ hnext _ (fun y hy => hS y (List.mem_cons_of_mem _ hy))
    by_cases hseen : toInt x ∈ s.checked
    · -- skipped by the lookup: the count cannot exceed the winner's
      have hxP : x ∈ P := by
        have := (hinv.checked_iff (toInt x)).mp hseen
        rwa [hx] at this
      have hle : ¬ lt.count x > t.mostVotedVotes := by
        have := hinv.max x hxP
        omega
      have h1 : voteStep lt s x = s := by simp [voteStep, hseen]
      have h2 : naiveVoteStep lt t x = t := by simp [naiveVoteStep, hx, hle]
      rw [h1, h2]
      exact ⟨a1, a2, a3, a4⟩
    · by_cases hgt : lt.count x > s.mostVotedVotes
      · have hgt' : lt.count x > t.mostVotedVotes := by omega
        have h1 : voteStep lt s x =
            { mostVotedCandidate := toInt x, secondCandidate := s.mostVotedCandidate
              mostVotedVotes := lt.count x, secondVotes := s.mostVotedVotes
              checked := s.checked ++ [toInt x] } := by
          simp [voteStep, hseen, hx, hgt]
        have h2 : naiveVoteStep lt t x =
            { mostVotedCandidate := toInt x, secondCandidate := t.mostVotedCandidate
              mostVotedVotes := lt.count x, secondVotes := t.mostVotedVotes
              checked := t.checked } := by
          simp [naiveVoteStep, hx, hgt']
        rw [h1, h2]
        exact ⟨rfl, a1, rfl, a3⟩
      · have hgt' : ¬ lt.count x > t.mostVotedVotes := by omega
        have h1 : voteStep lt s x = { s with checked := s.checked ++ [toInt x] } := by
          simp [voteStep, hseen, hx, hgt]
        have h2 : naiveVoteStep lt t x = t := by simp [naiveVoteStep, hx, hgt']
        rw [h1, h2]
        exact ⟨a1, a2, a3, a4⟩

/-- C16. The seen-set skip is a pure optimisation: on a non-empty sequence of
non-empty distributions the voting loop of the source (with the `checked`
lookup) and the loop that counts the votes at every segment position end with
the same `mostVotedCandidate`, `mostVotedVotes`, `secondCandidate` and
`secondVotes`; in particular `globalTempo` is the winner of the loop without
the lookup. -/
theorem seen_set_skip_is_optimisation (self : TempoCNN) (preds : List (List ℚ)) (o : Outputs)
    (hm : self._aggregationMethod = "majority") (hpreds : preds ≠ [])
    (hne : ∀ d ∈ preds, d ≠ []) :
    (finalVotes (self.compute preds o).1.localTempo).mostVotedCandidate =
      (naiveFinalVotes (self.compute preds o).1.localTempo).mostVotedCandidate ∧
    (finalVotes (self.compute preds o).1.localTempo).mostVotedVotes =
      (naiveFinalVotes (self.compute preds o).1.localTempo).mostVotedVotes ∧
    (finalVotes (self.compute preds o).1.localTempo).secondCandidate =
      (naiveFinalVotes (self.compute preds o).1.localTempo).secondCandidate ∧
    (finalVotes (self.compute preds o).1.localTempo).secondVotes =
      (naiveFinalVotes (self.compute preds o).1.localTempo).secondVotes ∧
    majorityLoop (self.compute preds o).1.localTempo preds.length 0
        { mostVotedCandidate := toInt ((self.compute preds o).1.localTempo.headD 0)
          secondCandidate := toInt ((self.compute preds o).1.localTempo.headD 0)
          mostVotedVotes := 0, secondVotes := 0, checked := [] } =
      Except.ok (finalVotes (self.compute preds o).1.localTempo) ∧
    (self.compute preds o).1.globalTempo =
      ((naiveFinalVotes (self.compute preds o).1.localTempo).mostVotedCandidate : ℚ) := by
  obtain ⟨-, heq⟩ := compute_majority self preds o hm hpreds hne
  have hloc : (self.compute preds o).1.localTempo = preds.map decodeTempo := by rw [heq]
  have hall : ∀ x ∈ preds.map decodeTempo,
      ((toInt x : Int) : ℚ) = x ∧ 0 < (preds.map decodeTempo).count x := by
    intro x hx
    refine ⟨?_, List.count_pos_iff.mpr hx⟩
    obtain ⟨d, -, rfl⟩ := List.mem_map.mp hx
    exact decodeTempo_integral d
  obtain ⟨h1, h2, h3, h4⟩ := foldl_naive_agrees (preds.map decodeTempo)
    (preds.map decodeTempo) []
    { mostVotedCandidate := toInt ((preds.map decodeTempo).headD 0)
      secondCandidate := toInt ((preds.map decodeTempo).headD 0)
      mostVotedVotes := 0, secondVotes := 0, checked := [] }
    { mostVotedCandidate := toInt ((preds.map decodeTempo).headD 0)
      secondCandidate := toInt ((preds.map decodeTempo).headD 0)
      mostVotedVotes := 0, secondVotes := 0, checked := [] }
    (votesInv_init _ _) ⟨rfl, rfl, rfl, rfl⟩ hall
  rw [hloc]
  refine ⟨h1, h3, h2, h4, ?_, ?_⟩
  · have h := majorityLoop_eq_foldl (preds.map decodeTempo) preds.length 0
      { mostVotedCandidate := toInt ((preds.map decodeTempo).headD 0)
        secondCandidate := toInt ((preds.map decodeTempo).headD 0)
        mostVotedVotes := 0, secondVotes := 0, checked := [] } (by simp)
    rw [List.drop_zero, List.take_of_length_le (by simp)] at h
    exact h
  · rw [heq]
    exact congrArg (fun c : Int => (c : ℚ)) h1

theorem naiveFinalVotes_35_35_40 :
    naiveFinalVotes [35, 35, 40] = ⟨35, 35, 2, 0, []⟩ := by
  simp [naiveFinalVotes, naiveVoteStep, toInt_35, toInt_40, List.count_cons]

/-- C16 at the specification's example: both loops end with the winner 35 on
two votes and the runner-up 35 on none. -/
theorem seen_set_skip_is_optimisation_witness :
    (finalVotes ((TempoCNN.mk "majority").compute [peakAt5, peakAt5, peakAt10]
        freshOutputs).1.localTempo).mostVotedCandidate =
      (naiveFinalVotes ((TempoCNN.mk "majority").compute [peakAt5, peakAt5, peakAt10]
        freshOutputs).1.localTempo).mostVotedCandidate ∧
    naiveFinalVotes [35, 35, 40] = ⟨35, 35, 2, 0, []⟩ ∧
    finalVotes [35, 35, 40] = ⟨35, 35, 2, 0, [35, 40]⟩ :=
  ⟨(seen_set_skip_is_optimisation (TempoCNN.mk "majority") [peakAt5, peakAt5, peakAt10]
      freshOutputs rfl (by decide) (by decide)).1,
    naiveFinalVotes_35_35_40, finalVotes_35_35_40⟩

/-! ## Bounds on the global tempo -/

theorem exists_min_max (l : List ℚ) (hl : l ≠ []) :
    ∃ lo ∈ l, ∃ hi ∈ l, ∀ y ∈ l, lo ≤ y ∧ y ≤ hi := by
  have hne : l.toFinset.Nonempty := by
    obtain ⟨a, as, rfl⟩ := List.exists_cons_of_ne_nil hl
    exact ⟨a, by simp⟩
  obtain ⟨lo, hlo, hmin⟩ := Finset.exists_min_image l.toFinset id hne
  obtain ⟨hi, hhi, hmax⟩ := Finset.exists_max_image l.toFinset id hne
  refine ⟨lo, List.mem_toFinset.mp hlo, hi, List.mem_toFinset.mp hhi, ?_⟩
  intro y hy
  exact ⟨hmin y (List.mem_toFinset.mpr hy), hmax y (List.mem_toFinset.mpr hy)⟩

theorem mean_between (l : List ℚ) (hl : l ≠ []) (lo hi : ℚ) (hlo : ∀ y ∈ l, lo ≤ y)
    (hhi : ∀ y ∈ l, y ≤ hi) :
    lo ≤ l.sum / (l.length : ℚ) ∧ l.sum / (l.length : ℚ) ≤ hi := by
  have hpos : (0 : ℚ) < (l.length : ℚ) := by
    exact_mod_cast List.length_pos.mpr hl
  have h1 := List.card_nsmul_le_sum l lo hlo
  have h2 := List.sum_le_card_nsmul l hi hhi
  rw [nsmul_eq_mul] at h1 h2
  constructor
  · rw [le_div_iff₀ hpos]
    linarith
  · rw [div_le_iff₀ hpos]
    linarith

theorem median_between (l : List ℚ) (hl : l ≠ []) (lo hi g : ℚ) (hg : median l = some g)
    (hlo : ∀ y ∈ l, lo ≤ y) (hhi : ∀ y ∈ l, y ≤ hi) : lo ≤ g ∧ g ≤ hi := by
  have hpos : 0 < l.length := List.length_pos.mpr hl
  have hlen : (l.insertionSort (· ≤ ·)).length = l.length := List.length_insertionSort _ _
  have hmem : ∀ i, i < l.length →
      lo ≤ ((l.insertionSort (· ≤ ·))[i]?).getD 0 ∧
        ((l.insertionSort (· ≤ ·))[i]?).getD 0 ≤ hi := by
    intro i hi'
    have hi2 : i < (l.insertionSort (· ≤ ·)).length := by omega
    rw [List.getElem?_eq_getElem hi2, Option.getD_some]
    have hin : (l.insertionSort (· ≤ ·))[i] ∈ l :=
      (List.mem_insertionSort (· ≤ ·)).mp (List.getElem_mem hi2)
    exact ⟨hlo _ hin, hhi _ hin⟩
  rw [median_eq l hl] at hg
  have hg' := Option.some.inj hg
  rw [← hg']
  split_ifs with heven
  · have ha := hmem (l.length / 2 - 1) (by omega)
    have hb := hmem (l.length / 2) (by omega)
    constructor
    · linarith [ha.1, hb.1]
    · linarith [ha.2, hb.2]
  · exact hmem (l.length / 2) (by omega)

/-- With any of the three methods the value written to `globalTempo` lies
between every lower bound and every upper bound of `localTempo`. -/
theorem compute_global_between (self : TempoCNN) (preds : List (List ℚ)) (o : Outputs)
    (hm : self._aggregationMethod = "mean" ∨ self._aggregationMethod = "median" ∨
      self._aggregationMethod = "majority")
    (hpreds : preds ≠ []) (hne : ∀ d ∈ preds, d ≠ []) (lo hi : ℚ)
    (hlo : ∀ y ∈ preds.map decodeTempo, lo ≤ y) (hhi : ∀ y ∈ preds.map decodeTempo, y ≤ hi) :
    lo ≤ (self.compute preds o).1.globalTempo ∧ (self.compute preds o).1.globalTempo ≤ hi := by
  have hP : preds.map decodeTempo ≠ [] := by simpa using hpreds
  rcases hm with h | h | h
  · rw [compute_mean self preds o h hpreds hne]
    exact mean_between _ hP lo hi hlo hhi
  · obtain ⟨g, hg, heq⟩ := compute_median self preds o h hpreds hne
    rw [heq]
    exact median_between _ hP lo hi g hg hlo hhi
  · obtain ⟨hinv, heq⟩ := compute_majority self preds o h hpreds hne
    rw [heq]
    exact ⟨hlo _ (hinv.mem hP), hhi _ (hinv.mem hP)⟩

/-- C17. Global tempo is bounded by the local tempos: on a non-empty sequence
of non-empty distributions and with any of the methods "mean", "median" and
"majority", the smallest and the largest entry of `localTempo` enclose
`globalTempo`.  Consequently, when every distribution has length 256,
`30 ≤ globalTempo ≤ 285`; when all segments decode to the same tempo `t`, in
particular for a single segment, `globalTempo = t`.  With "majority"
`globalTempo` is an entry of `localTempo`, and the integer truncation changes
no entry of `localTempo`. -/
theorem global_tempo_bounded (self : TempoCNN) (preds : List (List ℚ)) (o : Outputs)
    (hm : self._aggregationMethod = "mean" ∨ self._aggregationMethod = "median" ∨
      self._aggregationMethod = "majority")
    (hpreds : preds ≠ []) (hne : ∀ d ∈ preds, d ≠ []) :
    (∃ lo ∈ (self.compute preds o).1.localTempo, ∃ hi ∈ (self.compute preds o).1.localTempo,
      (∀ y ∈ (self.compute preds o).1.localTempo, lo ≤ y ∧ y ≤ hi) ∧
      lo ≤ (self.compute preds o).1.globalTempo ∧
      (self.compute preds o).1.globalTempo ≤ hi) ∧
    ((∀ d ∈ preds, d.length = 256) →
      30 ≤ (self.compute preds o).1.globalTempo ∧
        (self.compute preds o).1.globalTempo ≤ 285) ∧
    (∀ t, (∀ y ∈ (self.compute preds o).1.localTempo, y = t) →
      (self.compute preds o).1.globalTempo = t) ∧
    (∀ d, preds = [d] → (self.compute preds o).1.localTempo = [decodeTempo d] ∧
      (self.compute preds o).1.globalTempo = decodeTempo d) ∧
    (self._aggregationMethod = "majority" →
      (self.compute preds o).1.globalTempo ∈ (self.compute preds o).1.localTempo) ∧
    (∀ y ∈ (self.compute preds o).1.localTempo, ((toInt y : Int) : ℚ) = y) := by
  have hloc : (self.compute preds o).1.localTempo = preds.map decodeTempo :=
    (compute_local self preds o hne).1
  have hP : preds.map decodeTempo ≠ [] := by simpa using hpreds
  have hbet := compute_global_between self preds o hm hpreds hne
  rw [hloc]
  refine ⟨?_, ?_, ?_, ?_, ?_, ?_⟩
  · obtain ⟨lo, hlo, hi, hhi, hall⟩ := exists_min_max _ hP
    have h := hbet lo hi (fun y hy => (hall y hy).1) (fun y hy => (hall y hy).2)
    exact ⟨lo, hlo, hi, hhi, hall, h.1, h.2⟩
  · intro h256
    apply hbet 30 285
    · intro y hy
      obtain ⟨d, -, rfl⟩ := List.mem_map.mp hy
      have h0 : (0 : ℚ) ≤ (argmaxIndex d : ℚ) := Nat.cast_nonneg _
      simp only [decodeTempo, _BPMOffset]
      linarith
    · intro y hy
      obtain ⟨d, hd, rfl⟩ := List.mem_map.mp hy
      have hlt := argmaxIndex_lt d (hne d hd)
      rw [h256 d hd] at hlt
      have h1 : (argmaxIndex d : ℚ) ≤ 255 := by
        have : argmaxIndex d ≤ 255 := by omega
        exact_mod_cast this
      simp only [decodeTempo, _BPMOffset]
      linarith
  · intro t ht
    have h := hbet t t (fun y hy => le_of_eq (ht y hy).symm) (fun y hy => le_of_eq (ht y hy))
    exact le_antisymm h.2 h.1
  · intro d hd
    subst hd
    refine ⟨rfl, ?_⟩
    have h := hbet (decodeTempo d) (decodeTempo d)
      (fun y hy => by
        rw [List.map_singleton, List.mem_singleton] at hy
        exact le_of_eq hy.symm)
      (fun y hy => by
        rw [List.map_singleton, List.mem_singleton] at hy
        exact le_of_eq hy)
    exact le_antisymm h.2 h.1
  · intro hmaj
    obtain ⟨hinv, heq⟩ := compute_majority self preds o hmaj hpreds hne
    rw [heq]
    exact hinv.mem hP
  · intro y hy
    obtain ⟨d, -, rfl⟩ := List.mem_map.mp hy
    exact decodeTempo_integral d

/-- C17 at two segments that both decode to 35: the mean is 35. -/
theorem global_tempo_bounded_witness :
    ((TempoCNN.mk "mean").compute [peakAt5, peakAt5] freshOutputs).1.globalTempo = 35 :=
  (global_tempo_bounded (TempoCNN.mk "mean") [peakAt5, peakAt5] freshOutputs (Or.inl rfl)
    (by decide) (by decide)).2.2.1 35
    (by
      rw [(compute_local (TempoCNN.mk "mean") [peakAt5, peakAt5] freshOutputs (by decide)).1]
      intro y hy
      simpa [decodeTempo_peakAt5] using hy)

end Essentia
